import Mathlib

/-!
Verification development for the docx structural-reconstruction core
(`src/document.rs` of the doxx repository).

Rust strings are modelled as lists of characters (`Str`), with explicit
UTF-8 byte lengths where the source uses `str::len`.  Rust's Unicode
character classes (`char::is_whitespace`, `char::is_numeric`,
`char::is_uppercase`, `char::is_alphabetic`, `char::to_lowercase`) are
modelled by their restrictions to the character ranges exercised in this
development (ASCII plus the Unicode whitespace table); every concrete
input below stays inside those ranges, where the model is exact.

The `f32` arithmetic of `estimate_page_count` and of the 70% numeric-column
ratio test is modelled exactly over `ℚ` by `roundF32`: round-to-nearest
onto the 24-bit-significand grid of IEEE-754 binary32 (ties land on the
model's round-half-up; every concrete computation below is tie-free, so
the model agrees with IEEE round-half-even there), valid in the normal
range, which covers all values arising here.
-/

/-- Rust `String`/`&str` contents, modelled as a list of characters. -/
abbrev Str := List Char

/-- Rust `char::is_whitespace` (the Unicode White_Space property). -/
def isWhitespaceChar (c : Char) : Bool :=
  c = ' ' || c = '\t' || c = '\n' || c = '\r' ||
  c.toNat = 0x0B || c.toNat = 0x0C || c.toNat = 0x85 || c.toNat = 0xA0 ||
  c.toNat = 0x1680 || (0x2000 ≤ c.toNat && c.toNat ≤ 0x200A) ||
  c.toNat = 0x2028 || c.toNat = 0x2029 || c.toNat = 0x202F ||
  c.toNat = 0x205F || c.toNat = 0x3000

/-- Rust `char::is_ascii_punctuation`. -/
def isAsciiPunct (c : Char) : Bool :=
  (0x21 ≤ c.toNat && c.toNat ≤ 0x2F) || (0x3A ≤ c.toNat && c.toNat ≤ 0x40) ||
  (0x5B ≤ c.toNat && c.toNat ≤ 0x60) || (0x7B ≤ c.toNat && c.toNat ≤ 0x7E)

/-- Number of bytes of the UTF-8 encoding of a character. -/
def utf8Size (c : Char) : Nat :=
  if c.toNat < 0x80 then 1 else if c.toNat < 0x800 then 2
  else if c.toNat < 0x10000 then 3 else 4

/-- Rust `str::len`: the length in UTF-8 bytes. -/
def byteLen (s : Str) : Nat := (s.map utf8Size).sum

/-- Rust `str::starts_with(pat)` for a literal pattern. -/
def strStartsWith : Str → Str → Bool
  | _, [] => true
  | [], _ :: _ => false
  | c :: s, p :: ps => c = p && strStartsWith s ps

/-- Rust `str::contains(pat)` for a literal pattern: some suffix of `s`
starts with `pat`. -/
def strContains (s pat : Str) : Bool :=
  (List.range (s.length + 1)).any (fun i => strStartsWith (s.drop i) pat)

/-- Helper for `countOccur`, with explicit fuel (the fuel is always
sufficient because the pattern used is nonempty). -/
def countOccurAux (pat : Str) : Nat → Str → Nat
  | 0, _ => 0
  | _ + 1, [] => 0
  | fuel + 1, c :: rest =>
      if strStartsWith (c :: rest) pat ∧ pat ≠ [] then
        1 + countOccurAux pat fuel ((c :: rest).drop pat.length)
      else
        countOccurAux pat fuel rest

/-- Rust `str::matches(pat).count()`: number of non-overlapping
occurrences of `pat`, scanning left to right. -/
def countOccur (pat s : Str) : Nat := countOccurAux pat s.length s

/-- Left trim: drop leading whitespace. -/
def trimStart (s : Str) : Str := s.dropWhile isWhitespaceChar

/-- Rust `str::trim`: drop leading and trailing whitespace. -/
def strTrim (s : Str) : Str :=
  ((s.dropWhile isWhitespaceChar).reverse.dropWhile isWhitespaceChar).reverse

/-- Split on whitespace, discarding empty fragments (the word list of
Rust `str::split_whitespace`). The first argument accumulates the
current word in reverse. -/
def splitWsAux : Str → Str → List Str
  | [], cur => if cur = [] then [] else [cur.reverse]
  | c :: r, cur =>
      if isWhitespaceChar c then
        if cur = [] then splitWsAux r [] else cur.reverse :: splitWsAux r []
      else splitWsAux r (c :: cur)

/-- Rust `str::split_whitespace` as a list of words. -/
def splitWs (s : Str) : List Str := splitWsAux s []

/-- Rust `str::split_whitespace().count()`. -/
def countWords (s : Str) : Nat := (splitWs s).length

/-- Lower-case a string, character by character (Rust `str::to_lowercase`;
the ASCII restriction is exact on all inputs used here). -/
def lowerStr (s : Str) : Str := s.map Char.toLower

/-- Value of a digit-only numeral; `none` on any non-digit. -/
def parseNatDigitsAux : Str → Nat → Option Nat
  | [], acc => some acc
  | c :: r, acc =>
      if c.isDigit then parseNatDigitsAux r (acc * 10 + (c.toNat - 48)) else none

/-- Parse a nonempty all-digit string as a natural number. -/
def parseNatDigits : Str → Option Nat
  | [] => none
  | c :: r => parseNatDigitsAux (c :: r) 0

/-- Rust `str::parse::<u32>().is_ok()`: optional leading plus sign, then
one or more digits, value below 2^32. -/
def rustU32ParseOk (s : Str) : Bool :=
  let body := match s with
    | '+' :: r => r
    | r => r
  match parseNatDigits body with
  | some v => v < 4294967296
  | none => false

/-- Drop one leading sign character, for the float grammar. -/
def dropSign : Str → Str
  | '+' :: r => r
  | '-' :: r => r
  | r => r

/-- Exponent digits of the float grammar: optional sign then one or more
digits. -/
def expDigitsOk (s : Str) : Bool :=
  let b := dropSign s
  b ≠ [] && b.all Char.isDigit

/-- Optional exponent part of the float grammar. -/
def expPartOk : Str → Bool
  | [] => true
  | 'e' :: r => expDigitsOk r
  | 'E' :: r => expDigitsOk r
  | _ => false

/-- Mantissa-with-exponent part of Rust's `f64::from_str` grammar:
`Digit+ | Digit+ . Digit* | Digit* . Digit+`, then an optional exponent. -/
def floatNumberOk (s : Str) : Bool :=
  let ip := s.takeWhile Char.isDigit
  let rest := s.dropWhile Char.isDigit
  match rest with
  | [] => ip ≠ []
  | '.' :: r2 =>
      let fp := r2.takeWhile Char.isDigit
      let rest2 := r2.dropWhile Char.isDigit
      (ip ≠ [] || fp ≠ []) && expPartOk rest2
  | _ => (ip ≠ []) && expPartOk rest

/-- Rust `str::parse::<f64>().is_ok()`: the documented `from_str` grammar,
an optional sign followed by a number or a case-insensitive
inf/infinity/nan keyword. -/
def rustF64ParseOk (s : Str) : Bool :=
  let core := dropSign s
  let low := lowerStr core
  low = "inf".toList || low = "infinity".toList || low = "nan".toList ||
    floatNumberOk core

/-- Digit character of a single decimal digit. -/
def digitChar (n : Nat) : Char := Char.ofNat (48 + n)

/-- Decimal digits of a natural number, with explicit fuel (the fuel is
always sufficient because `n / 10` loses a digit per step). -/
def natDigitsAux : Nat → Nat → Str
  | 0, _ => []
  | fuel + 1, n =>
      if n < 10 then [digitChar n]
      else natDigitsAux fuel (n / 10) ++ [digitChar (n % 10)]

/-- Decimal rendering of a natural number (Rust `u32`/`u8` Display). -/
def natToStr (n : Nat) : Str := natDigitsAux (n + 1) n

/-- Rust `usize as i32`: truncate to 32 bits, two's complement. -/
def toI32 (n : Nat) : Int :=
  let m := n % 4294967296
  if m < 2147483648 then (m : Int) else (m : Int) - 4294967296

/-! The docx-rs input model: the fields of the docx-rs structures that
`document.rs` reads. -/

/-- Run properties read by `extract_run_formatting`: presence of
bold/italic/underline markers and the optional color value. -/
structure RunProperty where
  bold : Bool
  italic : Bool
  underline : Bool
  color : Option Str
deriving DecidableEq

/-- Children of a docx run (`docx_rs::RunChild`), restricted to the
variants `extract_run_text` distinguishes. -/
inductive RunChild where
  | text (s : Str)
  | tab
  | brk
  | drawing
  | otherChild
deriving DecidableEq

/-- A docx run. -/
structure Run where
  run_property : RunProperty
  children : List RunChild
deriving DecidableEq

/-- Children of a tracked-change insertion (`docx_rs::InsertChild`). -/
inductive InsertChild where
  | irun (r : Run)
  | iother
deriving DecidableEq

/-- Children of a docx paragraph (`docx_rs::ParagraphChild`). -/
inductive ParagraphChild where
  | run (r : Run)
  | ins (children : List InsertChild)
  | del
  | otherChild
deriving DecidableEq

/-- Numbering metadata attached to a paragraph (`w:numPr`): optional
numbering id (a usize in docx-rs) and optional indent level (usize). -/
structure NumberingProperty where
  id : Option Nat
  level : Option Nat
deriving DecidableEq

/-- Paragraph properties read by the classifiers: optional style name and
optional numbering metadata. -/
structure ParagraphProperty where
  style : Option Str
  numbering_property : Option NumberingProperty
deriving DecidableEq

/-- A docx paragraph. -/
structure Paragraph where
  property : ParagraphProperty
  children : List ParagraphChild
deriving DecidableEq

/-- Content of a docx table cell (`docx_rs::TableCellContent`). -/
inductive TableCellContent where
  | par (p : Paragraph)
  | otherContent
deriving DecidableEq

/-- A docx table cell. -/
structure DocxTableCell where
  children : List TableCellContent
deriving DecidableEq

/-- A docx table row. -/
structure DocxTableRow where
  cells : List DocxTableCell
deriving DecidableEq

/-- A docx table. -/
structure DocxTable where
  rows : List DocxTableRow
deriving DecidableEq

/-- Top-level children of the docx body (`docx_rs::DocumentChild`). -/
inductive DocumentChild where
  | paragraph (p : Paragraph)
  | table (t : DocxTable)
  | otherChild
deriving DecidableEq

/-! The output data model of `document.rs`. -/

/-- `TextFormatting`: one formatting record per paragraph.  `font_size`
is `Option<f32>` in the source but is never set by this core, so it is
modelled with a unit payload. -/
structure TextFormatting where
  bold : Bool
  italic : Bool
  underline : Bool
  font_size : Option Unit
  color : Option Str
deriving DecidableEq

/-- The all-false default formatting record. -/
def fmtDefault : TextFormatting :=
  { bold := false, italic := false, underline := false,
    font_size := none, color := none }

/-- `TextAlignment`. -/
inductive TextAlignment where
  | Left
  | Center
  | Right
  | Justify
deriving DecidableEq

/-- `CellDataType`. -/
inductive CellDataType where
  | Text
  | Number
  | Currency
  | Percentage
  | Date
  | Boolean
  | Empty
deriving DecidableEq

/-- `ListItem`. -/
structure ListItem where
  text : Str
  level : Nat
deriving DecidableEq

/-- `TableCell` of the output model. -/
structure TableCell where
  content : Str
  alignment : TextAlignment
  formatting : TextFormatting
  data_type : CellDataType
deriving DecidableEq

/-- `TableMetadata`. -/
structure TableMetadata where
  column_count : Nat
  row_count : Nat
  has_headers : Bool
  column_widths : List Nat
  column_alignments : List TextAlignment
  title : Option Str
deriving DecidableEq

/-- `TableData`. -/
structure TableData where
  headers : List TableCell
  rows : List (List TableCell)
  metadata : TableMetadata
deriving DecidableEq

/-- `DocumentElement`. -/
inductive DocumentElement where
  | heading (level : Nat) (text : Str) (number : Option Str)
  | paragraph (text : Str) (formatting : TextFormatting)
  | list (items : List ListItem) (ordered : Bool)
  | table (table : TableData)
  | image (description : Str) (width : Option Nat) (height : Option Nat)
  | pageBreak
deriving DecidableEq

/-- True on `Heading` elements. -/
def DocumentElement.isHeadingElem : DocumentElement → Bool
  | .heading _ _ _ => true
  | _ => false

/-- True on `List` elements. -/
def DocumentElement.isListElem : DocumentElement → Bool
  | .list _ _ => true
  | _ => false

/-! Embeddings of the functions of `src/document.rs`. -/

/-- `extract_run_formatting`: presence of bold/italic/underline and the
color value of the run properties (the source recovers the color string
through Debug formatting; the model reads it directly). -/
def extract_run_formatting (r : Run) : TextFormatting :=
  { bold := r.run_property.bold, italic := r.run_property.italic,
    underline := r.run_property.underline, font_size := none,
    color := r.run_property.color }

/-- `extract_run_text`: text children verbatim, tabs as a tab character,
breaks as a newline, drawings as the `[Image]` placeholder. -/
def extract_run_text (r : Run) : Str :=
  (r.children.map (fun ch => match ch with
    | .text s => s
    | .tab => ['\t']
    | .brk => ['\n']
    | .drawing => "[Image]".toList
    | .otherChild => [])).flatten

/-- `extract_paragraph_text`: concatenation of `extract_run_text` over
plain runs and runs nested in insertions (deletions skipped), trimmed. -/
def extract_paragraph_text (p : Paragraph) : Str :=
  strTrim ((p.children.map (fun ch => match ch with
    | .run r => extract_run_text r
    | .ins ics => (ics.map (fun ic => match ic with
        | .irun r => extract_run_text r
        | .iother => [])).flatten
    | .del => []
    | .otherChild => [])).flatten)

/-- The paragraph text accumulated inside `load_document` itself: only
`RunChild::Text` children of plain runs contribute, so tabs, breaks and
drawings add nothing here. -/
def loadParaText (p : Paragraph) : Str :=
  (p.children.map (fun ch => match ch with
    | .run r => (r.children.map (fun rc => match rc with
        | .text s => s
        | _ => [])).flatten
    | _ => [])).flatten

/-- The formatting record accumulated inside `load_document`: each run
overwrites the record until one with a bold or italic flag has been
taken. -/
def loadParaFmt (p : Paragraph) : TextFormatting :=
  p.children.foldl (fun fmt ch => match ch with
    | .run r => if !(fmt.bold || fmt.italic) then extract_run_formatting r else fmt
    | _ => fmt) fmtDefault

/-- `detect_heading_from_paragraph_style`: style names starting with the
literal `Heading` or `heading`; a final digit gives the level capped at
6, otherwise level 1. -/
def detect_heading_from_paragraph_style (p : Paragraph) : Option Nat :=
  match p.property.style with
  | none => none
  | some sv =>
      if strStartsWith sv ("Heading".toList) || strStartsWith sv ("heading".toList) then
        match sv.getLast? with
        | some c => if c.isDigit then some (min (c.toNat - 48) 6) else some 1
        | none => some 1
      else none

/-- `ListInfo`. -/
structure ListInfo where
  level : Nat
  is_ordered : Bool
deriving DecidableEq

/-- `HeadingInfo`. -/
structure HeadingInfo where
  level : Nat
  number : Option Str
  clean_text : Option Str
deriving DecidableEq

/-- `detect_list_from_paragraph_numbering`: any paragraph with numbering
metadata is a list item; the level is the declared indent level as a u8
(default 0), ordering follows the fixed rule on (numId, level).  The
source matches the usize numbering id against the literal 1 with no cast
(the i32 cast exists only in extract_numbering_info). -/
def detect_list_from_paragraph_numbering (p : Paragraph) : Option ListInfo :=
  match p.property.numbering_property with
  | none => none
  | some np =>
      let level := (np.level.map (· % 256)).getD 0
      let is_ordered :=
        match np.id with
        | some nid =>
            if nid = 1 then
              if level = 0 then false
              else if level = 1 then true
              else if level = 2 then true
              else decide (level % 2 = 1)
            else true
        | none => false
      some { level := level, is_ordered := is_ordered }

/-- `extract_numbering_info`: numbering id as i32 and level as u8
(default 0); `none` when the id is absent. -/
def extract_numbering_info (np : NumberingProperty) : Option (Int × Nat) :=
  np.id.map (fun i => (toI32 i, (np.level.map (· % 256)).getD 0))

/-- `reconstruct_heading_number`: the fixed table on (numbering level,
heading style level), ignoring the numbering id, with the
heading-style-level fallback. -/
def reconstruct_heading_number (_num_id : Int) (level : Nat) (heading_level : Nat) : Str :=
  match level, heading_level with
  | 0, 1 => "1".toList
  | 1, 2 => "1.1".toList
  | 2, 3 => "1.1.1".toList
  | 3, 4 => "1.1.1.1".toList
  | _, _ =>
      match heading_level with
      | 1 => "1".toList
      | 2 => "1.1".toList
      | 3 => "1.1.1".toList
      | _ => "1.1.1.1".toList

/-- Greedy parse of the regex fragment `(?:\.\d+)*`: repeatedly consume a
dot followed by at least one digit.  Returns (consumed, rest).  Fueled;
the fuel is the length of the input, which is always sufficient. -/
def decGroupsAux : Nat → Str → (Str × Str)
  | 0, s => ([], s)
  | fuel + 1, s =>
      match s with
      | '.' :: r =>
          let ds := r.takeWhile Char.isDigit
          if ds = [] then ([], s)
          else
            let next := decGroupsAux fuel (r.dropWhile Char.isDigit)
            ('.' :: (ds ++ next.1), next.2)
      | _ => ([], s)

/-- The tail `\s+(.+)$` common to all four heading-number patterns: at
least one whitespace character, then a nonempty remainder free of
newlines (the regex dot never matches a newline and `$` anchors at the
end of the haystack). -/
def wsThenRest (s : Str) : Option Str :=
  let ws := s.takeWhile isWhitespaceChar
  let rest := s.dropWhile isWhitespaceChar
  if ws ≠ [] ∧ rest ≠ [] ∧ rest.all (· ≠ '\n') then some rest else none

/-- Heading-number pattern 1, `^(\d+(?:\.\d+)*\.?)\s+(.+)$`. -/
def matchPat1 (s : Str) : Option (Str × Str) :=
  let ds := s.takeWhile Char.isDigit
  if ds = [] then none
  else
    let r1 := s.dropWhile Char.isDigit
    let g := decGroupsAux r1.length r1
    let dotted := match g.2 with
      | '.' :: r => (ds ++ g.1 ++ ['.'], r)
      | r => (ds ++ g.1, r)
    (wsThenRest dotted.2).map (fun rest => (dotted.1, rest))

/-- Heading-number pattern 2,
`^((?:Section|Chapter|Part)\s+\d+(?:\.\d+)*\.?)\s+(.+)$`; the capture
includes the keyword and the inner whitespace. -/
def matchPat2 (s : Str) : Option (Str × Str) :=
  let kw :=
    if strStartsWith s ("Section".toList) then some ("Section".toList, s.drop 7)
    else if strStartsWith s ("Chapter".toList) then some ("Chapter".toList, s.drop 7)
    else if strStartsWith s ("Part".toList) then some ("Part".toList, s.drop 4)
    else none
  kw.bind (fun kr =>
    let ws1 := kr.2.takeWhile isWhitespaceChar
    let r1 := kr.2.dropWhile isWhitespaceChar
    let ds := r1.takeWhile Char.isDigit
    if ws1 = [] ∨ ds = [] then none
    else
      let r2 := r1.dropWhile Char.isDigit
      let g := decGroupsAux r2.length r2
      let dotted := match g.2 with
        | '.' :: r => (['.'], r)
        | r => (([] : Str), r)
      (wsThenRest dotted.2).map
        (fun rest => (kr.1 ++ ws1 ++ ds ++ g.1 ++ dotted.1, rest)))

/-- ASCII upper-case letter, the regex class `[A-Z]`. -/
def isAsciiUpperChar (c : Char) : Bool := 65 ≤ c.toNat && c.toNat ≤ 90

/-- ASCII letter (Rust `char::is_ascii_lowercase` or
`char::is_ascii_uppercase`). -/
def isAsciiAlphaChar (c : Char) : Bool :=
  (65 ≤ c.toNat && c.toNat ≤ 90) || (97 ≤ c.toNat && c.toNat ≤ 122)

/-- Heading-number pattern 3, `^([A-Z]\.)\s+(.+)$`. -/
def matchPat3 (s : Str) : Option (Str × Str) :=
  match s with
  | c :: '.' :: r =>
      if isAsciiUpperChar c then
        (wsThenRest r).map (fun rest => ([c, '.'], rest))
      else none
  | _ => none

/-- The regex class `[IVX]`. -/
def isRomanChar (c : Char) : Bool := c = 'I' || c = 'V' || c = 'X'

/-- Heading-number pattern 4, `^([IVX]+\.)\s+(.+)$`. -/
def matchPat4 (s : Str) : Option (Str × Str) :=
  let rn := s.takeWhile isRomanChar
  if rn = [] then none
  else
    match s.dropWhile isRomanChar with
    | '.' :: r => (wsThenRest r).map (fun rest => (rn ++ ['.'], rest))
    | _ => none

/-- Rust `str::trim_end_matches('.')`: drop all trailing dots. -/
def dropTrailingDots (s : Str) : Str := (s.reverse.dropWhile (· = '.')).reverse

/-- Post-processing of one pattern match inside
`extract_heading_number_from_text`: strip trailing dots from the number,
trim the remainder, and accept only when both are nonempty (otherwise the
loop moves on to the next pattern). -/
def patResult (m : Option (Str × Str)) : Option (Str × Str) :=
  m.bind (fun nr =>
    let number := dropTrailingDots nr.1
    let remaining := strTrim nr.2
    if number ≠ [] ∧ remaining ≠ [] then some (number, remaining) else none)

/-- `extract_heading_number_from_text`: try the four patterns in order,
first acceptable match wins. -/
def extract_heading_number_from_text (text0 : Str) : Option (Str × Str) :=
  let text := strTrim text0
  if text = [] then none
  else
    (patResult (matchPat1 text)).orElse (fun _ =>
      (patResult (matchPat2 text)).orElse (fun _ =>
        (patResult (matchPat3 text)).orElse (fun _ =>
          patResult (matchPat4 text))))

/-- `detect_heading_with_numbering`: heading style required; then manual
number in the text, else Word numbering metadata through the fixed
reconstruction table, else no number. -/
def detect_heading_with_numbering (p : Paragraph) : Option HeadingInfo :=
  match detect_heading_from_paragraph_style p with
  | none => none
  | some heading_level =>
      let text := extract_paragraph_text p
      match extract_heading_number_from_text text with
      | some nr => some { level := heading_level, number := some nr.1, clean_text := some nr.2 }
      | none =>
          match p.property.numbering_property with
          | some np =>
              match extract_numbering_info np with
              | some il =>
                  some { level := heading_level,
                         number := some (reconstruct_heading_number il.1 il.2 heading_level),
                         clean_text := some text }
              | none => some { level := heading_level, number := none, clean_text := none }
          | none => some { level := heading_level, number := none, clean_text := none }

/-- Join number parts with dots (Rust `Vec::join(".")`). -/
def joinDots : List Str → Str
  | [] => []
  | [s] => s
  | s :: rest => s ++ '.' :: joinDots rest

/-- The all-zero initial state of `HeadingNumberTracker` (index `i` holds
the counter of heading level `i + 1`; the source array has six slots, and
indices beyond 5 are never touched or read). -/
def trackerInit : Nat → Nat := fun _ => 0

/-- `HeadingNumberTracker::get_number`: increment the counter at
`min(level-1, 5)` (saturating subtraction), zero all deeper counters, and
join the nonzero counters up to that index with dots.  The source
counters are u32 (`[u32; 6]`), so the increment wraps modulo 2^32;
states reachable from `trackerInit` keep every entry below 2^32. -/
def get_number (tr : Nat → Nat) (level : Nat) : Str × (Nat → Nat) :=
  let idx := min (level - 1) 5
  let tr2 : Nat → Nat := fun j =>
    if j = idx then (tr idx + 1) % 2 ^ 32 else if idx < j then 0 else tr j
  let parts := (List.range (idx + 1)).filterMap
    (fun i => if tr2 i ≠ 0 then some (natToStr (tr2 i)) else none)
  (joinDots parts, tr2)

/-- Successive numbers produced by a fresh tracker on a list of heading
levels, together with the final counter state. -/
def runTracker : List Nat → (Nat → Nat) → List Str × (Nat → Nat)
  | [], tr => ([], tr)
  | l :: ls, tr =>
      let r := get_number tr l
      let rest := runTracker ls r.2
      (r.1 :: rest.1, rest.2)

/-- Test on the first character of a string (false when empty). -/
def headIs (p : Char → Bool) : Str → Bool
  | [] => false
  | c :: _ => p c

/-- `is_likely_list_item`: tagged Word-list text is never a list item;
then the numbered-with-long-tail rule, the bullet glyphs, and the
single-ascii-letter-dot rule. -/
def is_likely_list_item (t0 : Str) : Bool :=
  let t := strTrim t0
  if strStartsWith t ("__WORD_LIST__".toList) then false
  else if headIs Char.isDigit t &&
          (match t.dropWhile (· ≠ '.') with
           | '.' :: after => byteLen (strTrim after) > 20
           | _ => false) then true
  else if strStartsWith t ("• ".toList) || strStartsWith t ("- ".toList) ||
          strStartsWith t ("* ".toList) then true
  else if decide (byteLen t > 3) && decide (t.get? 1 = some '.') &&
          headIs isAsciiAlphaChar t then true
  else false

/-- `is_likely_sentence`. -/
def is_likely_sentence (t0 : Str) : Bool :=
  let t := strTrim t0
  if countOccur (". ".toList) t > 1 then true
  else if byteLen t > 80 ∧
          (t.getLast? = some '.' ∨ t.getLast? = some '!' ∨ t.getLast? = some '?') then true
  else if strContains t (" and ".toList) || strContains t (" but ".toList) ||
          strContains t (" however ".toList) || strContains t (" therefore ".toList) then true
  else false

/-- `determine_heading_level_from_text`: shorter text gets a higher
level. -/
def determine_heading_level_from_text (t : Str) : Nat :=
  if byteLen t < 20 then 1 else if byteLen t < 40 then 2 else 3

/-- `detect_heading_from_text`: the conservative text-heuristic fallback
used when no heading style is declared. -/
def detect_heading_from_text (t0 : Str) (formatting : TextFormatting) : Option Nat :=
  let t := strTrim t0
  if byteLen t < 100 ∧ ¬ (t.contains '\n') then
    if is_likely_list_item t || is_likely_sentence t then none
    else if strStartsWith t ("⏺".toList) || strStartsWith t ("⎿".toList) ||
            strStartsWith t ("☐".toList) || strStartsWith t ("☒".toList) then none
    else if strContains t (" the ".toList) || strContains t (" and ".toList) ||
            strContains t (" with ".toList) || strContains t (" for ".toList) then none
    else if formatting.bold ∧ byteLen t < 60 ∧ byteLen t > 5 ∧
            t.getLast? ≠ some '.' ∧ t.getLast? ≠ some ',' ∧
            t.getLast? ≠ some ';' ∧ t.getLast? ≠ some ':' then
      some (determine_heading_level_from_text t)
    else if byteLen t > 15 ∧ byteLen t < 50 ∧
            t.all (fun c => c.isUpper || isWhitespaceChar c || c.isDigit || isAsciiPunct c) then
      some 1
    else if strStartsWith t ("Chapter ".toList) || strStartsWith t ("Section ".toList) ||
            strStartsWith t ("Part ".toList) then
      some (determine_heading_level_from_text t)
    else if byteLen t < 40 ∧ byteLen t > 10 ∧ t.getLast? ≠ some '.' ∧
            ¬ (t.contains ',') ∧ ¬ (t.contains '(') ∧ ¬ (t.contains ':') then
      if 2 ≤ (splitWs t).length ∧ (splitWs t).length ≤ 5 then
        if ((splitWs t).any (fun w => decide (byteLen w > 3) && w.all (fun c => c.isAlpha))) &&
           headIs Char.isUpper t then
          some (determine_heading_level_from_text t)
        else none
      else none
    else none
  else none

/-- `calculate_list_level`: leading-whitespace byte count divided by two,
cast to u8. -/
def calculate_list_level (t : Str) : Nat :=
  ((byteLen t - byteLen (trimStart t)) / 2) % 256

/-- `clean_list_item_text`: strip a bullet, an all-digit-prefix dot
number, or a single-ascii-letter dot marker, then trim. -/
def clean_list_item_text (t0 : Str) : Str :=
  let t := strTrim t0
  if strStartsWith t ("• ".toList) then strTrim (t.drop 2)
  else if strStartsWith t ("- ".toList) || strStartsWith t ("* ".toList) then strTrim (t.drop 2)
  else
    match t.dropWhile (· ≠ '.') with
    | '.' :: after =>
        if (t.takeWhile (· ≠ '.')).all (fun c => c.isDigit) then strTrim after
        else if decide (byteLen t > 3) && decide (t.get? 1 = some '.') &&
                headIs isAsciiAlphaChar t then
          strTrim (t.drop 2)
        else t
    | _ =>
        if decide (byteLen t > 3) && decide (t.get? 1 = some '.') &&
           headIs isAsciiAlphaChar t then
          strTrim (t.drop 2)
        else t

/-! An exact rational model of the IEEE-754 binary32 (`f32`) values and
rounding used by `estimate_page_count` and the numeric-column ratio
test.  A positive rational in the normal range is rounded to the nearest
point of the grid of 24-bit significands; ties take the upper neighbour
(round-half-up), while IEEE uses ties-to-even — every concrete
computation in this file is tie-free, where the two agree. -/

/-- Climb exponents while `2^(e+1) ≤ q`. -/
def floorLog2Aux : Nat → ℤ → ℚ → ℤ
  | 0, e, _ => e
  | fuel + 1, e, q => if (2:ℚ) ^ (e + 1) ≤ q then floorLog2Aux fuel (e + 1) q else e

/-- Floor of the base-2 logarithm, valid for `2^(-65) ≤ q < 2^65`. -/
def floorLog2 (q : ℚ) : ℤ := floorLog2Aux 130 (-65) q

/-- Round a rational to the nearest `f32` value (nonpositive inputs map
to zero; only nonnegative values arise in the modelled code). -/
def roundF32 (q : ℚ) : ℚ :=
  if q ≤ 0 then 0
  else
    let e := floorLog2 q
    ((round (q * 2 ^ (23 - e)) : ℤ) : ℚ) * 2 ^ (e - 23)

/-- The `f32` literal `0.7` of the source: the nearest binary32 value,
which lies strictly below 7/10. -/
def f32OfLit0point7 : ℚ := roundF32 (7 / 10)

/-- The `f32` comparison `(numeric as f32 / total as f32) > 0.7` of
`determine_column_alignments`, with the division correctly rounded. -/
def ratioAbove70 (numeric total : Nat) : Bool :=
  decide (f32OfLit0point7 < roundF32 (roundF32 (numeric : ℚ) / roundF32 (total : ℚ)))

/-- `estimate_page_count`: `(word_count as f32 / 250.0).ceil() as usize`.
The conversion of `word_count` to `f32` and the division both round; the
ceiling of an `f32` is exact, as is the final integer conversion. -/
def estimate_page_count (word_count : Nat) : Nat :=
  (⌈roundF32 (roundF32 (word_count : ℚ) / 250)⌉).toNat

/-! A grapheme-cluster counter modelling the segmentation of the external
unicode_segmentation crate.  Modelled from the spec: column widths count
grapheme clusters (UAX 29), not bytes or code points.  The model
implements the Extend and ZWJ rules (GB9/GB11) for the character classes
exercised here: combining diacritical marks, variation selectors,
emoji-modifier skin tones, and zero-width-joiner sequences; on text
without those classes it counts characters, exactly as the crate does. -/

/-- Characters that extend the current grapheme cluster rather than
starting a new one. -/
def isExtendChar (c : Char) : Bool :=
  (0x300 ≤ c.toNat && c.toNat ≤ 0x36F) ||
  (0xFE00 ≤ c.toNat && c.toNat ≤ 0xFE0F) ||
  (0x1F3FB ≤ c.toNat && c.toNat ≤ 0x1F3FF)

/-- The zero-width joiner. -/
def zwjChar : Char := Char.ofNat 0x200D

/-- Count clusters after the first character; `prev` is the previous
character. -/
def graphemeCountAux : Str → Char → Nat → Nat
  | [], _, n => n
  | c :: rest, prev, n =>
      if isExtendChar c || c = zwjChar || prev = zwjChar then
        graphemeCountAux rest c n
      else graphemeCountAux rest c (n + 1)

/-- Number of grapheme clusters of a string. -/
def graphemeCount : Str → Nat
  | [] => 0
  | c :: rest => graphemeCountAux rest c 1

/-- `TableCell::display_width`: the grapheme-cluster count of the cell
content. -/
def TableCell.display_width (c : TableCell) : Nat := graphemeCount c.content

/-- `detect_cell_data_type`: first matching rule wins, in source order. -/
def detect_cell_data_type (content : Str) : CellDataType :=
  let trimmed := strTrim content
  if trimmed = [] then .Empty
  else if headIs (fun c => c = '$' || c = '€' || c = '£') trimmed then .Currency
  else if trimmed.getLast? = some '%' then .Percentage
  else if (let lower := lowerStr trimmed
           lower = "true".toList ∨ lower = "false".toList ∨ lower = "yes".toList ∨
           lower = "no".toList ∨ lower = "y".toList ∨ lower = "n".toList) then .Boolean
  else if rustF64ParseOk (trimmed.filter (· ≠ ',')) then .Number
  else if (trimmed.contains '/' || trimmed.contains '-') &&
          (let parts := trimmed.splitOnP (fun c => c = '/' || c = '-')
           decide (parts.length = 3) && parts.all rustU32ParseOk) then .Date
  else .Text

/-- `default_alignment_for_type`. -/
def default_alignment_for_type : CellDataType → TextAlignment
  | .Number => .Right
  | .Currency => .Right
  | .Percentage => .Right
  | .Boolean => .Center
  | _ => .Left

/-- `TableCell::new`: data type from the content, alignment from the data
type, default formatting. -/
def TableCell.new (content : Str) : TableCell :=
  { content := content, alignment := default_alignment_for_type (detect_cell_data_type content),
    formatting := fmtDefault, data_type := detect_cell_data_type content }

/-- `TableCell::with_formatting`. -/
def TableCell.with_formatting (c : TableCell) (f : TextFormatting) : TableCell :=
  { c with formatting := f }

/-- One row of the width loop of `calculate_column_widths`: widths at
indices the row reaches are raised to the cell display width. -/
def updateWidths : List Nat → List TableCell → List Nat
  | [], _ => []
  | w :: ws, [] => w :: ws
  | w :: ws, c :: cs => max w c.display_width :: updateWidths ws cs

/-- `calculate_column_widths`: start from the header widths, raise by
every row, then enforce the minimum width of 3. -/
def calculate_column_widths (headers : List TableCell) (rows : List (List TableCell)) :
    List Nat :=
  if headers = [] then []
  else (rows.foldl updateWidths (headers.map TableCell.display_width)).map (fun w => max w 3)

/-- True on the numeric family of cell data types. -/
def isNumericFamily : CellDataType → Bool
  | .Number => true
  | .Currency => true
  | .Percentage => true
  | _ => false

/-- One row step of the per-column counters of
`determine_column_alignments`. -/
def colStep (i : Nat) (nt : Nat × Nat) (row : List TableCell) : Nat × Nat :=
  match row[i]? with
  | some c => (nt.1 + (if isNumericFamily c.data_type then 1 else 0), nt.2 + 1)
  | none => nt

/-- Per-column counters of `determine_column_alignments`: number of
numeric-family cells and number of present cells at column `i` over the
data rows. -/
def colCounts (rows : List (List TableCell)) (i : Nat) : Nat × Nat :=
  rows.foldl (colStep i) (0, 0)

/-- `determine_column_alignments`: Right when the column has cells and
the `f32` numeric ratio exceeds the `f32` literal 0.7, else Left. -/
def determine_column_alignments (headers : List TableCell) (rows : List (List TableCell)) :
    List TextAlignment :=
  (List.range headers.length).map (fun i =>
    let nt := colCounts rows i
    if 0 < nt.2 ∧ ratioAbove70 nt.1 nt.2 then TextAlignment.Right else TextAlignment.Left)

/-- `TableData::new`. -/
def TableData.new (headers : List TableCell) (rows : List (List TableCell)) : TableData :=
  { headers := headers, rows := rows,
    metadata :=
      { column_count := headers.length, row_count := rows.length,
        has_headers := headers ≠ [],
        column_widths := calculate_column_widths headers rows,
        column_alignments := determine_column_alignments headers rows,
        title := none } }

/-- Cell text accumulation of `extract_table_data`: per text child, a
separating space is inserted unless the accumulator is empty or already
ends in a space, then the text is appended. -/
def pushCellText (acc : Str) (s : Str) : Str :=
  (if acc ≠ [] ∧ acc.getLast? ≠ some ' ' then acc ++ [' '] else acc) ++ s

/-- Raw text of a docx table cell: all text children of all runs of all
cell paragraphs, with the separating-space rule. -/
def docxCellText (cell : DocxTableCell) : Str :=
  cell.children.foldl (fun acc content => match content with
    | .par p =>
        p.children.foldl (fun acc2 pc => match pc with
          | .run r =>
              r.children.foldl (fun acc3 rc => match rc with
                | .text s => pushCellText acc3 s
                | _ => acc3) acc2
          | _ => acc2) acc
    | .otherContent => acc) []

/-- Cell formatting of `extract_table_data`: each run overwrites the
record until one with a bold or italic flag has been taken. -/
def docxCellFmt (cell : DocxTableCell) : TextFormatting :=
  cell.children.foldl (fun fmt content => match content with
    | .par p =>
        p.children.foldl (fun fmt2 pc => match pc with
          | .run r => if !(fmt2.bold || fmt2.italic) then extract_run_formatting r else fmt2
          | _ => fmt2) fmt
    | .otherContent => fmt) fmtDefault

/-- The output cells of one docx table row:
`TableCell::new(text.trim()).with_formatting(fmt)`. -/
def tableRowCells (row : DocxTableRow) : List TableCell :=
  row.cells.map (fun c => (TableCell.new (strTrim (docxCellText c))).with_formatting (docxCellFmt c))

/-- `appears_to_be_header`: average byte length at most 50, and more than
half the cells are short phrases or contain a header keyword. -/
def appears_to_be_header (row : List Str) : Bool :=
  let total_chars := (row.map byteLen).sum
  let avg_length := if row ≠ [] then total_chars / row.length else 0
  if avg_length > 50 then false
  else
    let header_indicators := (row.filter (fun cell =>
      (decide (countWords cell ≤ 3) && decide (strTrim cell ≠ [])) ||
      (let cl := lowerStr cell
       strContains cl ("name".toList) || strContains cl ("date".toList) ||
       strContains cl ("amount".toList) || strContains cl ("type".toList) ||
       strContains cl ("status".toList) || strContains cl ("id".toList) ||
       strContains cl ("description".toList) || strContains cl ("count".toList)))).length
    decide (header_indicators > row.length / 2)

/-- One row step of the first pass of `extract_table_data`.  Rows with
no cells are skipped and leave the first-row flag untouched; the first
nonempty row becomes the header exactly when it passes the header test. -/
def tableFirstPassStep (st : List TableCell × List (List TableCell) × Bool)
    (row : DocxTableRow) : List TableCell × List (List TableCell) × Bool :=
  let cells := tableRowCells row
  if cells = [] then st
  else if st.2.2 ∧ appears_to_be_header (cells.map (·.content)) then (cells, st.2.1, false)
  else (st.1, st.2.1 ++ [cells], false)

/-- The first pass of `extract_table_data`: accumulated header cells,
data rows, and the not-yet-seen-a-nonempty-row flag. -/
def tableFirstPass (t : DocxTable) : List TableCell × List (List TableCell) × Bool :=
  t.rows.foldl tableFirstPassStep ([], [], true)

/-- `extract_table_data`: run the first pass, promote the first data row
to header when no header was detected, and emit the table unless both
headers and rows are empty. -/
def extract_table_data (t : DocxTable) : Option DocumentElement :=
  let fp := tableFirstPass t
  match fp.1, fp.2.1 with
  | [], [] => none
  | [], r :: rs => some (.table (TableData.new r rs))
  | h :: hs, ds => some (.table (TableData.new (h :: hs) ds))

/-! The assembly loop of `load_document`, the list grouping pass, and the
Word-list marker cleanup pass. -/

/-- The internal sentinel prefix marking Word-numbered list paragraphs. -/
def wordListTag : Str := "__WORD_LIST__".toList

/-- Indent of a Word-numbered list item: two spaces per level. -/
def listIndent (level : Nat) : Str := (List.replicate level [' ', ' ']).flatten

/-- Marker of a Word-numbered list item, by level; unordered items get a
star bullet.  The level arithmetic is u8 (wrapping at 256). -/
def wordListMarker (li : ListInfo) : Str :=
  if li.is_ordered then
    match li.level with
    | 0 => "1. ".toList
    | 1 => "a) ".toList
    | 2 => "i. ".toList
    | 3 => "A. ".toList
    | 4 => "I. ".toList
    | _ => natToStr ((li.level + 1) % 256) ++ ". ".toList
  else "* ".toList

/-- The full tagged text pushed for a Word-numbered list paragraph. -/
def wordListText (li : ListInfo) (text : Str) : Str :=
  wordListTag ++ listIndent li.level ++ wordListMarker li ++ strTrim text

/-- One paragraph step of `load_document`: empty-trim paragraphs yield no
element; list numbering wins over heading style, which wins over the
text heuristics; headings without an explicit number consume a tracker
number. -/
def assemblePara (tr : Nat → Nat) (p : Paragraph) : (Nat → Nat) × Option DocumentElement :=
  let heading_info := detect_heading_with_numbering p
  let list_info := detect_list_from_paragraph_numbering p
  let text := loadParaText p
  let formatting := loadParaFmt p
  if strTrim text = [] then (tr, none)
  else
    match list_info with
    | some li => (tr, some (.paragraph (wordListText li text) formatting))
    | none =>
        match heading_info with
        | some hi =>
            let heading_text := hi.clean_text.getD text
            match hi.number with
            | some n => (tr, some (.heading hi.level heading_text (some n)))
            | none =>
                let r := get_number tr hi.level
                (r.2, some (.heading hi.level heading_text (some r.1)))
        | none =>
            match detect_heading_from_text text formatting with
            | some lvl => (tr, some (.heading lvl text none))
            | none => (tr, some (.paragraph text formatting))

/-- The element-accumulation loop of `load_document` over the document
children, threading the heading-number tracker. -/
def assembleAux (tr : Nat → Nat) : List DocumentChild → List DocumentElement
  | [] => []
  | c :: rest =>
      match c with
      | .paragraph p =>
          let r := assemblePara tr p
          r.2.toList ++ assembleAux r.1 rest
      | .table t => (extract_table_data t).toList ++ assembleAux tr rest
      | .otherChild => assembleAux tr rest

/-- Elements accumulated by `load_document` before the grouping and
cleanup passes. -/
def assembleElements (cs : List DocumentChild) : List DocumentElement :=
  assembleAux trackerInit cs

/-- Flush of the in-progress list accumulator of `group_list_items`. -/
def flushList (cur : List ListItem) (ord : Bool) : List DocumentElement :=
  if cur = [] then [] else [.list cur ord]

/-- The forward scan of `group_list_items`: consecutive list-classified
paragraphs accumulate; a non-list element or an ordering switch flushes
first; the ordering flag follows the last accepted item. -/
def groupListAux : List DocumentElement → List ListItem → Bool → List DocumentElement
  | [], cur, ord => flushList cur ord
  | e :: rest, cur, ord =>
      match e with
      | .paragraph t _ =>
          if is_likely_list_item t then
            if cur ≠ [] ∧ headIs Char.isDigit (strTrim t) ≠ ord then
              .list cur ord :: groupListAux rest
                [{ text := clean_list_item_text t, level := calculate_list_level t }]
                (headIs Char.isDigit (strTrim t))
            else
              groupListAux rest
                (cur ++ [{ text := clean_list_item_text t, level := calculate_list_level t }])
                (headIs Char.isDigit (strTrim t))
          else
            flushList cur ord ++ e :: groupListAux rest [] ord
      | _ => flushList cur ord ++ e :: groupListAux rest [] ord

/-- `group_list_items`. -/
def group_list_items (elements : List DocumentElement) : List DocumentElement :=
  groupListAux elements [] false

/-- Strip the internal Word-list tag from a text. -/
def stripWordListTag (t : Str) : Str :=
  if strStartsWith t wordListTag then t.drop wordListTag.length else t

/-- `clean_word_list_markers`: strip the tag from every paragraph text
and every list-item text. -/
def clean_word_list_markers (elements : List DocumentElement) : List DocumentElement :=
  elements.map (fun e => match e with
    | .paragraph t f => .paragraph (stripWordListTag t) f
    | .list items o =>
        .list (items.map (fun it => { text := stripWordListTag it.text, level := it.level })) o
    | other => other)

/-- The final element list of `load_document`: assemble, group text
lists, strip Word-list tags. -/
def loadElements (cs : List DocumentChild) : List DocumentElement :=
  clean_word_list_markers (group_list_items (assembleElements cs))

/-- The word count accumulated by `load_document`: whitespace-split token
count of each paragraph text with nonempty trim. -/
def loadWordCount (cs : List DocumentChild) : Nat :=
  (cs.map (fun c => match c with
    | .paragraph p =>
        if strTrim (loadParaText p) = [] then 0 else countWords (loadParaText p)
    | _ => 0)).sum

/-- The page count recorded in the document metadata. -/
def loadPageCount (cs : List DocumentChild) : Nat := estimate_page_count (loadWordCount cs)

/-! Spec-side definitions, written from the wording of the specification,
for comparison with the source embeddings. -/

/-- First-match-wins evaluation of an ordered rule list, defaulting to
`Text`. -/
def firstMatchType : List ((Str → Bool) × CellDataType) → Str → CellDataType
  | [], _ => .Text
  | r :: rest, s => if r.1 s then r.2 else firstMatchType rest s

/-- The ordered per-cell typing rules as the spec words them: empty after
trim, leading currency glyph, trailing percent, boolean vocabulary,
comma-stripped float, three slash-or-dash parts all parsing as
non-negative integers. -/
def specCellRules : List ((Str → Bool) × CellDataType) :=
  [ (fun s => decide (strTrim s = []), .Empty),
    (fun s => headIs (fun c => c = '$' || c = '€' || c = '£') (strTrim s), .Currency),
    (fun s => decide ((strTrim s).getLast? = some '%'), .Percentage),
    (fun s => decide (lowerStr (strTrim s) = "true".toList ∨ lowerStr (strTrim s) = "false".toList ∨
       lowerStr (strTrim s) = "yes".toList ∨ lowerStr (strTrim s) = "no".toList ∨
       lowerStr (strTrim s) = "y".toList ∨ lowerStr (strTrim s) = "n".toList), .Boolean),
    (fun s => rustF64ParseOk ((strTrim s).filter (· ≠ ',')), .Number),
    (fun s => decide (((strTrim s).splitOnP (fun c => c = '/' || c = '-')).length = 3) &&
       ((strTrim s).splitOnP (fun c => c = '/' || c = '-')).all rustU32ParseOk, .Date) ]

/-- The spec-worded cell data type: the first matching rule of the
ordered list, else `Text`. -/
def specCellDataType (s : Str) : CellDataType := firstMatchType specCellRules s

/-- The spec-worded fixed heading-number table: keyed on (numbering
level, heading style level), with the fallback keyed on heading style
level alone, extending to four tiers from style level 4 up. -/
def specHeadingNumberTable (level : Nat) (heading_level : Nat) : Str :=
  match level, heading_level with
  | 0, 1 => "1".toList
  | 1, 2 => "1.1".toList
  | 2, 3 => "1.1.1".toList
  | 3, 4 => "1.1.1.1".toList
  | _, _ =>
      match heading_level with
      | 1 => "1".toList
      | 2 => "1.1".toList
      | 3 => "1.1.1".toList
      | _ => "1.1.1.1".toList

/-- Display widths of the cells present in column `i` of the data rows. -/
def columnCellWidths (rows : List (List TableCell)) (i : Nat) : List Nat :=
  (rows.filterMap (fun row => row.get? i)).map TableCell.display_width

/-- Maximum of a list of naturals (zero on the empty list). -/
def listMaxNat (l : List Nat) : Nat := l.foldr max 0

/-! Concrete inputs used by the counterexamples and witnesses. -/

/-- A run-property record with nothing set. -/
def rpDefault : RunProperty :=
  { bold := false, italic := false, underline := false, color := none }

/-- A style-less, numbering-less paragraph holding one plain text run. -/
def mkPlainPara (s : String) : Paragraph :=
  { property := { style := none, numbering_property := none },
    children := [.run { run_property := rpDefault, children := [.text s.toList] }] }

/-- A paragraph with only a style name. -/
def mkStylePara (s : String) : Paragraph :=
  { property := { style := some s.toList, numbering_property := none }, children := [] }

/-- A heading-styled paragraph with numbering metadata and no manual
number in its text. -/
def c1Para : Paragraph :=
  { property := { style := some "Heading1".toList,
                  numbering_property := some { id := some 5, level := some 0 } },
    children := [.run { run_property := rpDefault, children := [.text "Overview".toList] }] }

/-- A paragraph whose only run child is an embedded drawing. -/
def paraDrawing : Paragraph :=
  { property := { style := none, numbering_property := none },
    children := [.run { run_property := rpDefault, children := [.drawing] }] }

/-- A paragraph whose run holds text, a tab, and more text. -/
def paraTab : Paragraph :=
  { property := { style := none, numbering_property := none },
    children := [.run { run_property := rpDefault,
                        children := [.text "a".toList, .tab, .text "b".toList] }] }

/-- A docx table cell holding one plain paragraph. -/
def mkDocxCell (s : String) : DocxTableCell := { children := [.par (mkPlainPara s)] }

/-- A long-sentence table row that fails the header test (average cell
length above 50 bytes). -/
def longRow : DocxTableRow :=
  { cells := [mkDocxCell "this opening sentence runs well past the fifty character average limit"] }

/-- A second data row for the promotion witness. -/
def longRow2 : DocxTableRow :=
  { cells := [mkDocxCell "and this companion sentence also runs well past that same length limit"] }

/-- The Name/Age/City header row of the spec example. -/
def hdrRowNAC : DocxTableRow :=
  { cells := [mkDocxCell "Name", mkDocxCell "Age", mkDocxCell "City"] }

/-- Data rows of the spec table example. -/
def rowAlice : DocxTableRow :=
  { cells := [mkDocxCell "Alice", mkDocxCell "25", mkDocxCell "NYC"] }

/-- Second data row of the spec table example. -/
def rowBob : DocxTableRow :=
  { cells := [mkDocxCell "Bob", mkDocxCell "30", mkDocxCell "LA"] }

/-- The spec example table: header row plus two data rows. -/
def tableNAC : DocxTable := { rows := [hdrRowNAC, rowAlice, rowBob] }

/-- A salary column table: header plus two currency cells. -/
def tableSalary : DocxTable :=
  { rows := [ { cells := [mkDocxCell "Salary"] },
              { cells := [mkDocxCell "$30,000"] },
              { cells := [mkDocxCell "$45,000"] } ] }

/-- A table whose rows all fail the header test. -/
def tablePromo : DocxTable := { rows := [longRow, longRow2] }

/-- A header-only table. -/
def tableHeaderOnly : DocxTable := { rows := [hdrRowNAC] }

/-- A table with no rows at all. -/
def tableEmpty : DocxTable := { rows := [] }

/-- A numeric output cell for the large-column alignment counterexample. -/
def bigNumCell : TableCell := TableCell.new ("1".toList)

/-- A text output cell for the large-column alignment counterexample. -/
def bigTxtCell : TableCell := TableCell.new ("x".toList)

/-- A single-column data set of 5592417 cells of which 3914692 (just over
70 percent) are numeric. -/
def bigRows : List (List TableCell) :=
  List.replicate 3914692 [bigNumCell] ++ List.replicate 1677725 [bigTxtCell]

/-- A one-cell header row for the large-column counterexample. -/
def hdrBig : List TableCell := [TableCell.new ("H".toList)]

/-- The string cafe with a combining acute accent on the final e: five
characters, six UTF-8 bytes, four grapheme clusters. -/
def cafeCombining : Str := "cafe".toList ++ [Char.ofNat 0x301]

/-- A woman-astronaut emoji as a zero-width-joiner sequence: three
characters, eleven UTF-8 bytes, one grapheme cluster. -/
def astronautZwj : Str := [Char.ofNat 0x1F469, zwjChar, Char.ofNat 0x1F680]

/-! Theorems.  Each claim of the specification is settled below; shared
helper lemmas come first. -/

/-- A filterMap by a guarded some is the filter followed by the map. -/
theorem filterMap_guard_eq {α β : Type} (p : α → Prop) [DecidablePred p] (f : α → β)
    (l : List α) :
    (l.filterMap (fun a => if p a then some (f a) else none)) =
      (l.filter (fun a => decide (p a))).map f := by
  induction l with
  | nil => rfl
  | cons a l ih =>
      by_cases h : p a <;>
        simp [List.filterMap_cons, List.filter_cons, h, ih]

/-- C2: auto-numbering is stateful and order-sensitive.  `get_number` at
level L increments the u32 counter at index min(L-1,5) (wrapping modulo
2^32, as the source's `[u32; 6]` does), zeroes every deeper counter and
keeps every shallower one, and renders the dot-joined decimal values of
the counters that are nonzero after the update, from level 1 up to L —
never-visited ancestor levels are omitted, not rendered as zero.
Concretely, three unnumbered level-1 headings number as 1, 2, 3; a
level-2 heading after the second yields 2.1; a following level-1 heading
yields 3 with the level-2 counter reset to 0; a first heading at level 3
renders as 1 alone; and at the saturated counter 2^32 - 1 the increment
wraps to 0, which is then omitted from the rendered number. -/
theorem claim_C2 :
    (∀ (tr : Nat → Nat) (level : Nat),
      (∀ j, (get_number tr level).2 j =
        if j = min (level - 1) 5 then (tr (min (level - 1) 5) + 1) % 2 ^ 32
        else if min (level - 1) 5 < j then 0 else tr j) ∧
      (get_number tr level).1 =
        joinDots (((List.range (min (level - 1) 5 + 1)).filter
            (fun i => decide ((get_number tr level).2 i ≠ 0))).map
          (fun i => natToStr ((get_number tr level).2 i)))) ∧
    (runTracker [1, 1, 1] trackerInit).1 = ["1".toList, "2".toList, "3".toList] ∧
    (runTracker [1, 1, 2, 1] trackerInit).1 =
      ["1".toList, "2".toList, "2.1".toList, "3".toList] ∧
    (runTracker [1, 1, 2, 1] trackerInit).2 1 = 0 ∧
    (runTracker [3] trackerInit).1 = ["1".toList] ∧
    (get_number (fun j => if j = 0 then 2 ^ 32 - 1 else 0) 1).2 0 = 0 ∧
    (get_number (fun j => if j = 0 then 2 ^ 32 - 1 else 0) 1).1 = [] := by
  refine ⟨fun tr level => ⟨fun j => rfl, ?_⟩, by decide, by decide, by decide, by decide,
    by decide, by decide⟩
  exact congrArg joinDots
    (filterMap_guard_eq (fun i => (get_number tr level).2 i ≠ 0)
      (fun i => natToStr ((get_number tr level).2 i))
      (List.range (min (level - 1) 5 + 1)))

/-- C4 counterexample: the style comparison is not case-insensitive — the
style name HEADING1 starts with "heading" case-insensitively yet is
rejected — and the level is not clamped into [1,6] from below: trailing
digit 0 gives level 0 (as does Heading10, whose last character is 0). -/
theorem claim_C4_counterexample :
    detect_heading_from_paragraph_style (mkStylePara "HEADING1") = none ∧
    detect_heading_from_paragraph_style (mkStylePara "Heading0") = some 0 ∧
    detect_heading_from_paragraph_style (mkStylePara "Heading10") = some 0 := by
  refine ⟨by decide, by decide, by decide⟩

/-- C4 as amended: the style classifier accepts exactly the style names
starting with the literal prefix Heading or heading (not a
case-insensitive comparison); when the name ends in a digit that digit
gives the level capped above at 6 but not below (a trailing 0 gives
level 0), and a name without a trailing digit gives level 1. -/
theorem claim_C4_amended (p : Paragraph) (s : Str) (hs : p.property.style = some s) :
    detect_heading_from_paragraph_style p =
      (if strStartsWith s ("Heading".toList) || strStartsWith s ("heading".toList) then
        some (match s.getLast? with
          | some c => if c.isDigit then min (c.toNat - 48) 6 else 1
          | none => 1)
      else none) := by
  simp only [detect_heading_from_paragraph_style, hs]
  split
  · rcases h : s.getLast? with _ | c <;> simp [h] <;> split <;> simp
  · rfl

/-- C4 witness: the amended characterization applied to the concrete
style name Heading3, which is accepted at level 3. -/
theorem claim_C4_witness :
    detect_heading_from_paragraph_style (mkStylePara "Heading3") =
      (if strStartsWith ("Heading3".toList) ("Heading".toList) ||
          strStartsWith ("Heading3".toList) ("heading".toList) then
        some (match ("Heading3".toList).getLast? with
          | some c => if c.isDigit then min (c.toNat - 48) 6 else 1
          | none => 1)
      else none) :=
  claim_C4_amended (mkStylePara "Heading3") ("Heading3".toList) rfl

/-- C3 counterexample: with the paragraph 1. Third item inserted between
the two bullet paragraphs, the output is not two List elements — it is
an unordered List, then a plain Paragraph (the text after the dot is
only 10 bytes, not more than 20, so the text-pattern detector rejects
1. Third item as a list item), then another unordered List; in
particular no ordered List element appears at all. -/
theorem claim_C3_counterexample :
    loadElements [.paragraph (mkPlainPara "• First item"),
        .paragraph (mkPlainPara "1. Third item"),
        .paragraph (mkPlainPara "• Second item")] =
      [.list [{ text := "First item".toList, level := 0 }] false,
       .paragraph ("1. Third item".toList) fmtDefault,
       .list [{ text := "Second item".toList, level := 0 }] false] ∧
    ((loadElements [.paragraph (mkPlainPara "• First item"),
        .paragraph (mkPlainPara "1. Third item"),
        .paragraph (mkPlainPara "• Second item")]).filter
      DocumentElement.isListElem) =
      [.list [{ text := "First item".toList, level := 0 }] false,
       .list [{ text := "Second item".toList, level := 0 }] false] := by
  refine ⟨by decide, by decide⟩

/-- C3 as amended: two adjacent bullet paragraphs produce exactly one
List element with both items and ordered false; inserting 1. Third item
between them does not yield an unordered and an ordered List — because
the detector demands more than 20 bytes after the dot, the middle
paragraph stays a plain Paragraph and the output is unordered List,
Paragraph, unordered List. -/
theorem claim_C3_amended :
    loadElements [.paragraph (mkPlainPara "• First item"),
        .paragraph (mkPlainPara "• Second item")] =
      [.list [{ text := "First item".toList, level := 0 },
              { text := "Second item".toList, level := 0 }] false] ∧
    is_likely_list_item ("1. Third item".toList) = false ∧
    loadElements [.paragraph (mkPlainPara "• First item"),
        .paragraph (mkPlainPara "1. Third item"),
        .paragraph (mkPlainPara "• Second item")] =
      [.list [{ text := "First item".toList, level := 0 }] false,
       .paragraph ("1. Third item".toList) fmtDefault,
       .list [{ text := "Second item".toList, level := 0 }] false] := by
  refine ⟨by decide, by decide, by decide⟩

/-- C6 counterexample: the text forwarded by the assembly loop is not
built by `extract_run_text` — a paragraph holding only a drawing run
child yields no element at all (the claimed placeholder token would make
it a nonempty paragraph), and a run of text a, a tab, and text b is
forwarded as ab, not as a tab-separated pair. -/
theorem claim_C6_counterexample :
    loadElements [.paragraph paraDrawing] = [] ∧
    extract_run_text { run_property := rpDefault, children := [.drawing] } =
      "[Image]".toList ∧
    extract_run_text
        { run_property := rpDefault,
          children := [.text "a".toList, .tab, .text "b".toList] } =
      "a\tb".toList ∧
    loadElements [.paragraph paraTab] = [.paragraph ("ab".toList) fmtDefault] := by
  refine ⟨by decide, by decide, by decide, by decide⟩

/-- C6 as amended: the paragraph text forwarded to classification by the
assembly loop concatenates only the plain text children of the
paragraph's runs — tab, break, and drawing children contribute nothing
there (the tab/newline/placeholder conversion of `extract_run_text` is
used only for heading-number extraction); a paragraph whose forwarded
text trims to empty contributes no element, and any other paragraph
contributes exactly one element, a plain paragraph carrying the
forwarded text when no classifier accepts it. -/
theorem claim_C6_amended (tr : Nat → Nat) (p : Paragraph) :
    (strTrim (loadParaText p) = [] → (assemblePara tr p).2 = none) ∧
    (strTrim (loadParaText p) ≠ [] → (assemblePara tr p).2.isSome = true) ∧
    (p.property.numbering_property = none →
      detect_heading_with_numbering p = none →
      strTrim (loadParaText p) ≠ [] →
      detect_heading_from_text (loadParaText p) (loadParaFmt p) = none →
      (assemblePara tr p).2 = some (.paragraph (loadParaText p) (loadParaFmt p))) := by
  refine ⟨fun h => ?_, fun h => ?_, fun h1 h2 h3 h4 => ?_⟩
  · simp [assemblePara, h]
  · simp only [assemblePara, if_neg h]
    rcases hl : detect_list_from_paragraph_numbering p with _ | li
    · rcases hh : detect_heading_with_numbering p with _ | hi
      · rcases ht : detect_heading_from_text (loadParaText p) (loadParaFmt p) with _ | lvl <;>
          simp
      · rcases hn : hi.number with _ | n <;> simp [hn]
    · simp
  · have hl : detect_list_from_paragraph_numbering p = none := by
      simp [detect_list_from_paragraph_numbering, h1]
    simp [assemblePara, h3, hl, h2, h4]

/-- The reconstruction table of `reconstruct_heading_number` ignores the
numbering id and coincides with the spec-worded fixed table. -/
theorem reconstruct_eq_spec_table (nid : Int) (level heading_level : Nat) :
    reconstruct_heading_number nid level heading_level =
      specHeadingNumberTable level heading_level := rfl

/-- C1 counterexample: a heading-styled paragraph (style Heading1) whose
text Overview carries no manual number and which carries numbering
metadata (id 5, level 0) is not emitted as a Heading element at all —
the assembly loop gives list-numbering metadata priority over heading
style, so the paragraph comes out as the plain Paragraph 1. Overview
produced by the Word-list branch; no Heading appears in the output. -/
theorem claim_C1_counterexample :
    detect_heading_from_paragraph_style c1Para = some 1 ∧
    extract_heading_number_from_text (extract_paragraph_text c1Para) = none ∧
    c1Para.property.numbering_property.isSome = true ∧
    loadElements [.paragraph c1Para] = [.paragraph ("1. Overview".toList) fmtDefault] ∧
    (loadElements [.paragraph c1Para]).all (fun e => !e.isHeadingElem) = true := by
  refine ⟨by decide, by decide, by decide, by decide, by decide⟩

/-- C1 as amended: for a paragraph with a heading style, no manual number
in its text, and numbering metadata carrying an id, the heading detector
`detect_heading_with_numbering` does report a heading whose number is
synthesized from the fixed table keyed on (numbering level, heading
style level) — (0,1) to 1, (1,2) to 1.1, (2,3) to 1.1.1, (3,4) to
1.1.1.1, unmatched combinations falling back to the table keyed on the
heading style level alone — with the paragraph text kept as-is; but the
assembler never emits that Heading, because the list-numbering branch
takes priority for any paragraph with numbering metadata (the
counterexample shows the resulting Paragraph element). -/
theorem claim_C1_amended (p : Paragraph) (hl : Nat) (np : NumberingProperty) (nid : Nat)
    (h1 : detect_heading_from_paragraph_style p = some hl)
    (h2 : extract_heading_number_from_text (extract_paragraph_text p) = none)
    (h3 : p.property.numbering_property = some np)
    (h4 : np.id = some nid) :
    detect_heading_with_numbering p =
      some { level := hl,
             number := some (specHeadingNumberTable ((np.level.map (· % 256)).getD 0) hl),
             clean_text := some (extract_paragraph_text p) } ∧
    (∀ (nid2 : Int) (lvl hl2 : Nat),
      reconstruct_heading_number nid2 lvl hl2 = specHeadingNumberTable lvl hl2) := by
  refine ⟨?_, fun nid2 lvl hl2 => rfl⟩
  simp only [detect_heading_with_numbering, h1, h2, h3, extract_numbering_info, h4,
    Option.map_some, reconstruct_eq_spec_table]
  rfl

/-- C1 witness: the amended detector characterization applied to the
concrete paragraph of the counterexample. -/
theorem claim_C1_witness :
    detect_heading_with_numbering c1Para =
      some { level := 1, number := some (specHeadingNumberTable 0 1),
             clean_text := some ("Overview".toList) } ∧
    (∀ (nid2 : Int) (lvl hl2 : Nat),
      reconstruct_heading_number nid2 lvl hl2 = specHeadingNumberTable lvl hl2) :=
  claim_C1_amended c1Para 1 { id := some 5, level := some 0 } 5
    (by decide) (by decide) rfl rfl

/-- C6 witness: the amended characterization applied to the concrete
drawing-only and tab-splice paragraphs. -/
theorem claim_C6_witness :
    (assemblePara trackerInit paraDrawing).2 = none ∧
    (assemblePara trackerInit paraTab).2.isSome = true ∧
    (assemblePara trackerInit paraTab).2 =
      some (.paragraph (loadParaText paraTab) (loadParaFmt paraTab)) :=
  ⟨(claim_C6_amended trackerInit paraDrawing).1 (by decide),
   (claim_C6_amended trackerInit paraTab).2.1 (by decide),
   (claim_C6_amended trackerInit paraTab).2.2 (by decide) (by decide) (by decide) (by decide)⟩

/-- Rows accumulated by the table first pass are never cell-less: rows
with no cells are skipped before accumulation. -/
theorem firstPass_data_rows_ne_nil :
    ∀ (rows : List DocxTableRow) (st : List TableCell × List (List TableCell) × Bool),
      (∀ l ∈ st.2.1, l ≠ []) →
      ∀ l ∈ (rows.foldl tableFirstPassStep st).2.1, l ≠ [] := by
  intro rows
  induction rows with
  | nil => intro st h; simpa using h
  | cons row rest ih =>
      intro st h
      refine ih _ ?_
      simp only [tableFirstPassStep]
      by_cases hc : tableRowCells row = []
      · simpa [hc] using h
      · simp only [if_neg hc]
        by_cases hh : st.2.2 ∧ appears_to_be_header ((tableRowCells row).map (·.content))
        · simpa [hh] using h
        · simp only [if_neg hh]
          intro l hl
          rcases List.mem_append.mp hl with hl1 | hl2
          · exact h l hl1
          · simp only [List.mem_singleton] at hl2
            exact hl2 ▸ hc

/-- C5: header promotion and table emission.  When the first pass detects
no header and at least one data row exists, the first data row is
promoted to header; a table whose only content is a detected header row
is still emitted; a table with neither header cells nor data rows is not
emitted at all; and every emitted table has a nonempty header row or a
nonempty row list — never zero headers and zero rows. -/
theorem claim_C5 (t : DocxTable) :
    ((tableFirstPass t).1 = [] → (tableFirstPass t).2.1 = [] →
      extract_table_data t = none) ∧
    (∀ r rs, (tableFirstPass t).1 = [] → (tableFirstPass t).2.1 = r :: rs →
      extract_table_data t = some (.table (TableData.new r rs))) ∧
    (∀ h hs, (tableFirstPass t).1 = h :: hs →
      extract_table_data t = some (.table (TableData.new (h :: hs) (tableFirstPass t).2.1))) ∧
    (∀ el, extract_table_data t = some el →
      ∃ td, el = .table td ∧ ¬(td.headers = [] ∧ td.rows = [])) := by
  refine ⟨fun h1 h2 => ?_, fun r rs h1 h2 => ?_, fun h hs h1 => ?_, fun el he => ?_⟩
  · simp [extract_table_data, h1, h2]
  · simp [extract_table_data, h1, h2]
  · simp [extract_table_data, h1]
  · rcases hp : (tableFirstPass t).1 with _ | ⟨h, hs⟩ <;>
      rcases hd : (tableFirstPass t).2.1 with _ | ⟨r, rs⟩
    · simp [extract_table_data, hp, hd] at he
    · have hr : r ≠ [] := by
        refine firstPass_data_rows_ne_nil t.rows ([], [], true) (by simp) r ?_
        rw [show (t.rows.foldl tableFirstPassStep ([], [], true)) = tableFirstPass t from rfl, hd]
        exact List.mem_cons_self r rs
      simp only [extract_table_data, hp, hd] at he
      exact ⟨TableData.new r rs, (Option.some.inj he).symm, fun hcon => hr hcon.1⟩
    · simp only [extract_table_data, hp, hd] at he
      exact ⟨TableData.new (h :: hs) [], (Option.some.inj he).symm,
        fun hcon => List.cons_ne_nil h hs hcon.1⟩
    · simp only [extract_table_data, hp, hd] at he
      exact ⟨TableData.new (h :: hs) (r :: rs), (Option.some.inj he).symm,
        fun hcon => List.cons_ne_nil h hs hcon.1⟩

/-- C5 witness: the emission rules applied to a table with no rows, a
table whose rows all fail the header test (promotion of the first data
row), and a header-only table. -/
theorem claim_C5_witness :
    extract_table_data tableEmpty = none ∧
    extract_table_data tablePromo =
      some (.table (TableData.new (tableRowCells longRow) [tableRowCells longRow2])) ∧
    extract_table_data tableHeaderOnly =
      some (.table (TableData.new (tableRowCells hdrRowNAC) [])) :=
  ⟨(claim_C5 tableEmpty).1 (by decide) (by decide),
   (claim_C5 tablePromo).2.1 (tableRowCells longRow) [tableRowCells longRow2]
     (by decide) (by decide),
   (claim_C5 tableHeaderOnly).2.2.1 ((tableRowCells hdrRowNAC).getD 0 (TableCell.new []))
     ((tableRowCells hdrRowNAC).drop 1) (by decide)⟩

/-- One width-update row: each width present is raised by the cell at the
same index when that cell exists. -/
theorem updateWidths_get? (ws : List Nat) (row : List TableCell) (i : Nat) :
    (updateWidths ws row)[i]? =
      (ws[i]?).map (fun w => match row[i]? with
        | some c => max w c.display_width
        | none => w) := by
  induction ws generalizing row i with
  | nil => simp [updateWidths]
  | cons w ws ih =>
      cases row with
      | nil =>
          cases i <;> simp [updateWidths]
      | cons c cs =>
          cases i with
          | zero => simp [updateWidths]
          | succ n => simpa [updateWidths] using ih cs n

/-- The width fold over all rows raises each initial width by the widths
of the cells present in its column. -/
theorem foldl_updateWidths_get? (rows : List (List TableCell)) (ws : List Nat) (i : Nat) :
    ((rows.foldl updateWidths ws)[i]?) =
      (ws[i]?).map (fun w => max w (listMaxNat (columnCellWidths rows i))) := by
  induction rows generalizing ws with
  | nil => simp [columnCellWidths, listMaxNat]
  | cons row rest ih =>
      rw [List.foldl_cons, ih, updateWidths_get?]
      rcases h : row[i]? with _ | c
      · simp [columnCellWidths, List.filterMap_cons, h, Option.map_map]
      · simp only [columnCellWidths, List.filterMap_cons, h, Option.map_map, listMaxNat,
          List.map_cons, List.foldr_cons]
        rcases ws[i]? with _ | w
        · rfl
        · simp [Function.comp, Nat.max_assoc, List.filterMap_cons, h]

/-- C8: for every table and every valid column index, the recorded
column width is the maximum of 3, the grapheme-cluster count of the
header cell, and the grapheme-cluster count of every data cell present
in that column; widths are counted in grapheme clusters, so a cell
carrying a combining mark or a multi-codepoint emoji contributes its
grapheme count, not its UTF-8 byte length. -/
theorem claim_C8 :
    (∀ headers rows, (TableData.new headers rows).metadata.column_widths =
      calculate_column_widths headers rows) ∧
    (∀ (headers : List TableCell) (rows : List (List TableCell)) (i : Nat),
      (calculate_column_widths headers rows)[i]? =
        (headers[i]?).map (fun hc =>
          max 3 (max hc.display_width (listMaxNat (columnCellWidths rows i))))) ∧
    graphemeCount cafeCombining = 4 ∧ byteLen cafeCombining = 6 ∧
    graphemeCount astronautZwj = 1 ∧ byteLen astronautZwj = 11 ∧
    calculate_column_widths [TableCell.new cafeCombining] [] = [4] ∧
    calculate_column_widths [TableCell.new astronautZwj] [] = [3] := by
  refine ⟨fun headers rows => rfl, fun headers rows i => ?_,
    by decide, by decide, by decide, by decide, by decide, by decide⟩
  rcases headers with _ | ⟨h0, hs⟩
  · simp [calculate_column_widths]
  · have hne : (h0 :: hs : List TableCell) ≠ [] := List.cons_ne_nil h0 hs
    simp only [calculate_column_widths, if_neg hne, List.getElem?_map, foldl_updateWidths_get?,
      Option.map_map]
    congr 1
    funext hc
    simp only [Function.comp]
    omega

/-- Integer-power cast helper for the base 2. -/
theorem two_zpow_natCast (k : Nat) : (2:ℚ) ^ (k : ℤ) = (2:ℚ) ^ k := zpow_natCast 2 k

/-- The exponent climb of `floorLog2Aux` lands in the bracket
`2^e ≤ q < 2^(e+1)` whenever its invariant and fuel bound hold. -/
theorem floorLog2Aux_spec :
    ∀ (f : Nat) (e : ℤ) (q : ℚ), (2:ℚ) ^ e ≤ q → q < 2 ^ (e + (f : ℤ)) →
      (2:ℚ) ^ (floorLog2Aux f e q) ≤ q ∧ q < 2 ^ (floorLog2Aux f e q + 1) := by
  intro f
  induction f with
  | zero =>
      intro e q h1 h2
      rw [Nat.cast_zero, add_zero] at h2
      exact absurd h1 (not_le.mpr h2)
  | succ n ih =>
      intro e q h1 h2
      show (2:ℚ) ^ (if (2:ℚ) ^ (e + 1) ≤ q then floorLog2Aux n (e + 1) q else e) ≤ q ∧
        q < 2 ^ ((if (2:ℚ) ^ (e + 1) ≤ q then floorLog2Aux n (e + 1) q else e) + 1)
      split
      · next hle =>
          refine ih (e + 1) q hle ?_
          have hE : e + ((n : ℤ) + 1) = e + 1 + (n : ℤ) := by ring
          rw [Nat.cast_succ, hE] at h2
          exact h2
      · next hgt => exact ⟨h1, not_le.mp hgt⟩

/-- The bracket property of `floorLog2` on its valid range. -/
theorem floorLog2_spec (q : ℚ) (h1 : (2:ℚ) ^ (-65 : ℤ) ≤ q) (h2 : q < 2 ^ (65 : ℤ)) :
    (2:ℚ) ^ (floorLog2 q) ≤ q ∧ q < 2 ^ (floorLog2 q + 1) := by
  refine floorLog2Aux_spec 130 (-65) q h1 ?_
  have hE : (-65 : ℤ) + ((130 : ℕ) : ℤ) = 65 := by norm_num
  rw [hE]
  exact h2

/-- `floorLog2` is determined by any valid bracket. -/
theorem floorLog2_unique (q : ℚ) (k : ℤ) (hk1 : (2:ℚ) ^ k ≤ q) (hk2 : q < 2 ^ (k + 1))
    (hlo : -65 ≤ k) (hhi : k < 65) : floorLog2 q = k := by
  have hr1 : (2:ℚ) ^ (-65 : ℤ) ≤ q := le_trans (zpow_le_zpow_right₀ one_le_two hlo) hk1
  have hr2 : q < 2 ^ (65 : ℤ) :=
    lt_of_lt_of_le hk2 (zpow_le_zpow_right₀ one_le_two (by omega))
  obtain ⟨b1, b2⟩ := floorLog2_spec q hr1 hr2
  have e1 : floorLog2 q < k + 1 :=
    (zpow_lt_zpow_iff_right₀ one_lt_two).mp (lt_of_le_of_lt b1 hk2)
  have e2 : k < floorLog2 q + 1 :=
    (zpow_lt_zpow_iff_right₀ one_lt_two).mp (lt_of_le_of_lt hk1 b2)
  omega

/-- Unfolded form of `roundF32` on positive inputs. -/
theorem roundF32_pos_eq (q : ℚ) (hq : 0 < q) :
    roundF32 q =
      ((round (q * 2 ^ ((23:ℤ) - floorLog2 q)) : ℤ) : ℚ) * 2 ^ (floorLog2 q - 23) := by
  unfold roundF32
  rw [if_neg (not_le.mpr hq)]

/-- Half-ulp error bound of the `f32` rounding model. -/
theorem roundF32_err (q : ℚ) (hq : 0 < q) :
    |roundF32 q - q| ≤ 2 ^ (floorLog2 q - 24) := by
  rw [roundF32_pos_eq q hq]
  set e := floorLog2 q with he
  set r := round (q * 2 ^ ((23:ℤ) - e)) with hr
  have h2 : (2:ℚ) ^ ((23:ℤ) - e) * 2 ^ (e - 23) = 1 := by
    rw [← zpow_add₀ (two_ne_zero (α := ℚ))]
    norm_num
  have key : (r : ℚ) * 2 ^ (e - 23) - q = ((r : ℚ) - q * 2 ^ ((23:ℤ) - e)) * 2 ^ (e - 23) := by
    calc (r : ℚ) * 2 ^ (e - 23) - q
        = (r : ℚ) * 2 ^ (e - 23) - q * ((2:ℚ) ^ ((23:ℤ) - e) * 2 ^ (e - 23)) := by
          rw [h2, mul_one]
      _ = ((r : ℚ) - q * 2 ^ ((23:ℤ) - e)) * 2 ^ (e - 23) := by ring
  rw [key, abs_mul, abs_of_pos (zpow_pos (by norm_num : (0:ℚ) < 2) (e - 23))]
  have hround : |(r : ℚ) - q * 2 ^ ((23:ℤ) - e)| ≤ 1 / 2 := by
    rw [hr, abs_sub_comm]
    exact abs_sub_round (q * 2 ^ ((23:ℤ) - e))
  calc |(r : ℚ) - q * 2 ^ ((23:ℤ) - e)| * 2 ^ (e - 23)
      ≤ (1 / 2) * 2 ^ (e - 23) :=
        mul_le_mul_of_nonneg_right hround (le_of_lt (zpow_pos (by norm_num) _))
    _ = 2 ^ (e - 24) := by
        rw [show e - 24 = (-1) + (e - 23) by ring, zpow_add₀ (two_ne_zero (α := ℚ))]
        norm_num

/-- The `f32` rounding model fixes every value whose scaled significand
is an integer. -/
theorem roundF32_eq_self_of_int (q : ℚ) (hq : 0 < q) (m : ℤ)
    (hm : q * 2 ^ ((23:ℤ) - floorLog2 q) = (m : ℚ)) : roundF32 q = q := by
  rw [roundF32_pos_eq q hq, hm, round_intCast, ← hm, mul_assoc,
    ← zpow_add₀ (two_ne_zero (α := ℚ))]
  norm_num

/-- The `f32` rounding model is exact on natural numbers up to 2^24
(conversion of such a word count to `f32` is lossless). -/
theorem roundF32_natCast (n : Nat) (h : n ≤ 2 ^ 24) : roundF32 (n : ℚ) = (n : ℚ) := by
  rcases Nat.eq_zero_or_pos n with h0 | hpos
  · subst h0
    simp [roundF32]
  · have hq : (0:ℚ) < n := by exact_mod_cast hpos
    by_cases h24 : n = 2 ^ 24
    · subst h24
      have he : floorLog2 ((2 ^ 24 : ℕ) : ℚ) = 24 := by
        refine floorLog2_unique _ 24 ?_ ?_ (by norm_num) (by norm_num)
        · push_cast
          norm_num
        · push_cast
          norm_num
      refine roundF32_eq_self_of_int _ hq (2 ^ 23) ?_
      rw [he]
      push_cast
      norm_num
    · have hlt : n < 2 ^ 24 := lt_of_le_of_ne h h24
      have hge1 : (1:ℚ) ≤ (n : ℚ) := Nat.one_le_cast.mpr hpos
      have hlow : (2:ℚ) ^ (-65 : ℤ) ≤ (n : ℚ) := le_trans (by norm_num) hge1
      have hup24 : (n : ℚ) < 2 ^ (24 : ℤ) := by
        have hE : (2:ℚ) ^ (24 : ℤ) = 16777216 := by norm_num
        have hlt2 : n < 16777216 := by omega
        rw [hE]
        exact_mod_cast hlt2
      have hup : (n : ℚ) < 2 ^ (65 : ℤ) :=
        lt_of_lt_of_le hup24 (zpow_le_zpow_right₀ one_le_two (by norm_num))
      have hb := floorLog2_spec (n : ℚ) hlow hup
      set e := floorLog2 ((n : ℕ) : ℚ) with he
      have he0 : 0 ≤ e := by
        by_contra hcon
        have h1 : e + 1 ≤ 0 := by omega
        have h2 : (2:ℚ) ^ (e + 1) ≤ 2 ^ (0 : ℤ) := zpow_le_zpow_right₀ one_le_two h1
        have h3 : (n : ℚ) < 1 := by
          have := lt_of_lt_of_le hb.2 h2
          simpa using this
        exact absurd h3 (not_lt.mpr hge1)
      have he23 : e ≤ 23 := by
        have h1 : (2:ℚ) ^ e < 2 ^ (24 : ℤ) := lt_of_le_of_lt hb.1 hup24
        have := (zpow_lt_zpow_iff_right₀ (one_lt_two (α := ℚ))).mp h1
        omega
      refine roundF32_eq_self_of_int _ hq ((n : ℤ) * 2 ^ ((23 - e).toNat)) ?_
      have hcast : ((23:ℤ) - e) = (((23 - e).toNat : ℕ) : ℤ) :=
        (Int.toNat_of_nonneg (by omega)).symm
      rw [← he, hcast, two_zpow_natCast]
      push_cast
      rw [Int.toNat_natCast]

/-- C9 as amended: the page count equals the exact mathematical ceiling
of word_count / 250 for every word count up to 2^24 = 16777216; the
claim's unrestricted form fails because the computation runs through
`f32`, whose 24-bit significand cannot represent larger word counts
exactly (the counterexample exhibits the divergence at 35000001). -/
theorem claim_C9_amended (w : Nat) (h : w ≤ 2 ^ 24) :
    estimate_page_count w = (w + 249) / 250 := by
  unfold estimate_page_count
  rw [roundF32_natCast w h]
  rcases Nat.eq_zero_or_pos w with h0 | hpos
  · subst h0
    norm_num [roundF32]
  by_cases hdvd : 250 ∣ w
  · obtain ⟨k, hk⟩ := hdvd
    have hk24 : k ≤ 2 ^ 24 := by omega
    have hq0 : ((w : ℚ)) / 250 = (k : ℚ) := by
      rw [hk]
      push_cast
      ring_nf
    rw [hq0, roundF32_natCast k hk24, Int.ceil_natCast]
    rw [Int.toNat_natCast]
    omega
  · have hrpos : 0 < w % 250 :=
      Nat.pos_of_ne_zero (fun hz => hdvd (Nat.dvd_of_mod_eq_zero hz))
    have hrlt : w % 250 < 250 := Nat.mod_lt w (by norm_num)
    have hweq : 250 * (w / 250) + w % 250 = w := Nat.div_add_mod w 250
    set k := w / 250 with hkdef
    have hq0pos : (0:ℚ) < (w : ℚ) / 250 := by positivity
    have hlb : (k : ℚ) + 1 / 250 ≤ (w : ℚ) / 250 := by
      have hn : (250 * k + 1 : ℕ) ≤ w := by omega
      have hc : ((250 * k + 1 : ℕ) : ℚ) ≤ (w : ℚ) := by exact_mod_cast hn
      have : ((250 * k + 1 : ℕ) : ℚ) / 250 ≤ (w : ℚ) / 250 := by gcongr
      calc (k : ℚ) + 1 / 250 = ((250 * k + 1 : ℕ) : ℚ) / 250 := by push_cast; ring
        _ ≤ (w : ℚ) / 250 := this
    have hub : (w : ℚ) / 250 ≤ (k : ℚ) + 1 - 1 / 250 := by
      have hn : w ≤ 250 * k + 249 := by omega
      have hc : (w : ℚ) ≤ ((250 * k + 249 : ℕ) : ℚ) := by exact_mod_cast hn
      have : (w : ℚ) / 250 ≤ ((250 * k + 249 : ℕ) : ℚ) / 250 := by gcongr
      calc (w : ℚ) / 250 ≤ ((250 * k + 249 : ℕ) : ℚ) / 250 := this
        _ = (k : ℚ) + 1 - 1 / 250 := by push_cast; ring
    have hq0up : (w : ℚ) / 250 < 2 ^ (17 : ℤ) := by
      have hE : (2:ℚ) ^ (17 : ℤ) = 131072 := by norm_num
      have hw16 : w ≤ 16777216 := by omega
      have hc : (w : ℚ) ≤ 16777216 := by exact_mod_cast hw16
      rw [hE]
      linarith
    have hq0low : (2:ℚ) ^ (-65 : ℤ) ≤ (w : ℚ) / 250 := by
      have h1 : (1:ℚ) / 250 ≤ (w : ℚ) / 250 := by
        have : (0:ℚ) ≤ (k : ℚ) := by positivity
        linarith
      refine le_trans ?_ h1
      norm_num
    have he16 : floorLog2 ((w : ℚ) / 250) ≤ 16 := by
      have hb := floorLog2_spec ((w : ℚ) / 250) hq0low
        (lt_of_lt_of_le hq0up (zpow_le_zpow_right₀ one_le_two (by norm_num)))
      have h1 : (2:ℚ) ^ (floorLog2 ((w : ℚ) / 250)) < 2 ^ (17 : ℤ) :=
        lt_of_le_of_lt hb.1 hq0up
      have := (zpow_lt_zpow_iff_right₀ (one_lt_two (α := ℚ))).mp h1
      omega
    have herr2 : |roundF32 ((w : ℚ) / 250) - (w : ℚ) / 250| ≤ 1 / 256 := by
      refine le_trans (roundF32_err _ hq0pos) ?_
      have h1 : (2:ℚ) ^ (floorLog2 ((w : ℚ) / 250) - 24) ≤ 2 ^ (-8 : ℤ) :=
        zpow_le_zpow_right₀ one_le_two (by omega)
      have h2 : (2:ℚ) ^ (-8 : ℤ) = 1 / 256 := by norm_num
      rw [h2] at h1
      exact h1
    obtain ⟨herrlo, herrhi⟩ := abs_le.mp herr2
    have hceil : ⌈roundF32 ((w : ℚ) / 250)⌉ = (k : ℤ) + 1 := by
      rw [Int.ceil_eq_iff]
      constructor
      · push_cast
        linarith
      · push_cast
        linarith
    rw [hceil]
    have : ((k : ℤ) + 1).toNat = k + 1 := by omega
    rw [this]
    omega

/-- C9 counterexample: at word_count = 35000001 the code computes page
count 140000 — the `f32` conversion rounds 35000001 (which lies between
representable neighbours 35000000 and 35000004, nearer the former) down
to 35000000, whose quotient by 250 is exactly 140000 — while the exact
ceiling of 35000001 / 250 is 140001. -/
theorem claim_C9_counterexample :
    estimate_page_count 35000001 = 140000 ∧ (35000001 + 249) / 250 = 140001 := by
  constructor
  · have h1 : floorLog2 ((35000001 : ℕ) : ℚ) = 25 := by
      refine floorLog2_unique _ 25 ?_ ?_ (by norm_num) (by norm_num)
      · push_cast
        norm_num
      · push_cast
        norm_num
    have h2 : roundF32 ((35000001 : ℕ) : ℚ) = 35000000 := by
      rw [roundF32_pos_eq _ (by push_cast; norm_num), h1]
      push_cast
      have hround : round ((35000001 : ℚ) * 2 ^ ((-2) : ℤ)) = 8750000 := by
        have hE : ((35000001 : ℚ)) * 2 ^ ((-2) : ℤ) = 35000001 / 4 := by norm_num
        rw [hE, round_eq]
        norm_num [Int.floor_eq_iff]
      rw [hround]
      norm_num
    unfold estimate_page_count
    rw [h2]
    have h3 : ((35000000 : ℚ)) / 250 = ((140000 : ℕ) : ℚ) := by norm_num
    rw [h3, roundF32_natCast 140000 (by norm_num), Int.ceil_natCast, Int.toNat_natCast]
  · norm_num

/-- C9 witness: the amended exact-ceiling statement applied at the
concrete word count 300, giving 2 pages. -/
theorem claim_C9_witness : estimate_page_count 300 = (300 + 249) / 250 :=
  claim_C9_amended 300 (by norm_num)

/-- The slash-or-dash guard before the date rule is redundant: a string
with no separator splits into a single part, which already fails the
three-part test. -/
theorem date_guard_redundant (s : Str) :
    (((strTrim s).contains '/' || (strTrim s).contains '-') &&
      (decide (((strTrim s).splitOnP (fun c => c = '/' || c = '-')).length = 3) &&
        ((strTrim s).splitOnP (fun c => c = '/' || c = '-')).all rustU32ParseOk)) =
    (decide (((strTrim s).splitOnP (fun c => c = '/' || c = '-')).length = 3) &&
      ((strTrim s).splitOnP (fun c => c = '/' || c = '-')).all rustU32ParseOk) := by
  by_cases h6 : ((strTrim s).contains '/' || (strTrim s).contains '-') = true
  · rw [h6, Bool.true_and]
  · have h6f : ((strTrim s).contains '/' || (strTrim s).contains '-') = false :=
      Bool.eq_false_iff.mpr h6
    rw [h6f, Bool.false_and]
    have hmem : ∀ c ∈ strTrim s, ¬((fun c => decide (c = '/') || decide (c = '-')) c = true) := by
      intro c hc
      simp only [Bool.or_eq_true, decide_eq_true_eq]
      rintro (rfl | rfl)
      · exact h6 (by simp; exact Or.inl hc)
      · exact h6 (by simp; exact Or.inr hc)
    have hone : (strTrim s).splitOnP (fun c => c = '/' || c = '-') = [strTrim s] :=
      List.splitOnP_eq_single _ _ hmem
    rw [hone]
    simp

/-- The per-cell typing of the source agrees with the spec-worded
ordered rule list; the only textual difference, the source's redundant
slash-or-dash guard before the date rule, never changes the result. -/
theorem detect_cell_eq_spec (s : Str) : detect_cell_data_type s = specCellDataType s := by
  simp only [detect_cell_data_type, specCellDataType, firstMatchType, specCellRules]
  rw [date_guard_redundant s]
  simp only [decide_eq_true_eq]

/-- Exact value of the `f32` literal 0.7: the significand 11744051 at
exponent -24, strictly below 7/10. -/
theorem f32_0_7_eval : f32OfLit0point7 = 11744051 / 2 ^ 24 := by
  unfold f32OfLit0point7
  have h1 : floorLog2 ((7:ℚ) / 10) = -1 :=
    floorLog2_unique _ (-1) (by norm_num) (by norm_num) (by norm_num) (by norm_num)
  rw [roundF32_pos_eq _ (by norm_num), h1]
  have hr : round ((7:ℚ) / 10 * 2 ^ ((23:ℤ) - (-1))) = 11744051 := by
    have hE : ((7:ℚ) / 10) * 2 ^ ((23:ℤ) - (-1)) = 117440512 / 10 := by norm_num
    rw [hE, round_eq]
    norm_num [Int.floor_eq_iff]
  rw [hr]
  norm_num

/-- The `f32` literal 0.7 lies strictly below 7/10. -/
theorem f32_0_7_lt : f32OfLit0point7 < 7 / 10 := by
  rw [f32_0_7_eval]
  norm_num

/-- The `f32` literal 0.7 is positive. -/
theorem f32_0_7_pos : 0 < f32OfLit0point7 := by
  rw [f32_0_7_eval]
  norm_num

/-- A column with no numeric cells is never right-aligned. -/
theorem ratioAbove70_zero (t : Nat) : ratioAbove70 0 t = false := by
  unfold ratioAbove70
  have h0q : roundF32 (0 : ℚ) = 0 := by
    simp [roundF32]
  rw [Nat.cast_zero, h0q, zero_div, h0q]
  simp [decide_eq_false_iff_not, not_lt, le_of_lt f32_0_7_pos]

/-- The `f32` ratio test accepts every column of at most 2^21 cells whose
exact numeric ratio exceeds 7/10. -/
theorem ratioAbove70_of (n t : Nat) (hn : n ≤ t) (ht : t ≤ 2097152)
    (h : 7 * t < 10 * n) : ratioAbove70 n t = true := by
  have ht0 : 0 < t := by omega
  have hn24 : n ≤ 2 ^ 24 := by omega
  have ht24 : t ≤ 2 ^ 24 := by omega
  unfold ratioAbove70
  rw [roundF32_natCast n hn24, roundF32_natCast t ht24]
  have htQ : (0:ℚ) < (t : ℚ) := by exact_mod_cast ht0
  have hr7 : (7:ℚ) / 10 < (n : ℚ) / (t : ℚ) := by
    rw [div_lt_div_iff (by norm_num) htQ]
    have hc : (7 * t : ℚ) < 10 * n := by exact_mod_cast h
    linarith
  have hr1 : (n : ℚ) / (t : ℚ) ≤ 1 := by
    rw [div_le_one htQ]
    exact_mod_cast hn
  rcases eq_or_lt_of_le hr1 with heq | hlt1
  · rw [heq]
    have h1 : roundF32 ((1 : ℕ) : ℚ) = ((1 : ℕ) : ℚ) := roundF32_natCast 1 (by norm_num)
    rw [Nat.cast_one] at h1
    rw [h1]
    simp only [decide_eq_true_eq]
    linarith [f32_0_7_lt]
  · have hrpos : (0:ℚ) < (n : ℚ) / (t : ℚ) := by linarith
    have he : floorLog2 ((n : ℚ) / (t : ℚ)) = -1 := by
      refine floorLog2_unique _ (-1) ?_ ?_ (by norm_num) (by norm_num)
      · have hE : (2:ℚ) ^ (-1 : ℤ) = 1 / 2 := by norm_num
        rw [hE]
        linarith
      · have hE : (2:ℚ) ^ ((-1 : ℤ) + 1) = 1 := by norm_num
        rw [hE]
        exact hlt1
    have herr := roundF32_err ((n : ℚ) / (t : ℚ)) hrpos
    rw [he] at herr
    have hE : (2:ℚ) ^ ((-1 : ℤ) - 24) = 1 / 33554432 := by norm_num
    rw [hE] at herr
    obtain ⟨hlo, hhi⟩ := abs_le.mp herr
    have htb : (t : ℚ) ≤ 2097152 := by exact_mod_cast ht
    have h10 : (7 * t : ℚ) + 1 ≤ 10 * n := by
      have hc : 7 * t + 1 ≤ 10 * n := by omega
      exact_mod_cast hc
    have hgap : (7:ℚ) / 10 + 1 / 20971520 ≤ (n : ℚ) / (t : ℚ) := by
      rw [le_div_iff htQ]
      nlinarith [htb, h10, htQ]
    simp only [decide_eq_true_eq]
    have h1 : (n : ℚ) / (t : ℚ) - 1 / 33554432 ≤ roundF32 ((n : ℚ) / (t : ℚ)) := by
      linarith
    linarith [f32_0_7_lt]

/-- Entry of the alignment list at a valid column. -/
theorem determine_column_alignments_entry (headers : List TableCell)
    (rows : List (List TableCell)) (col : Nat) (hcol : col < headers.length) :
    (determine_column_alignments headers rows)[col]? =
      some (if 0 < (colCounts rows col).2 ∧
          ratioAbove70 (colCounts rows col).1 (colCounts rows col).2 then
        TextAlignment.Right else TextAlignment.Left) := by
  unfold determine_column_alignments
  rw [List.getElem?_map, List.getElem?_range hcol]
  rfl

/-- The numeric count of a column never exceeds its cell count. -/
theorem colCounts_fst_le_snd (rows : List (List TableCell)) (i : Nat) :
    (colCounts rows i).1 ≤ (colCounts rows i).2 := by
  suffices h : ∀ (ab : Nat × Nat), ab.1 ≤ ab.2 →
      (rows.foldl (colStep i) ab).1 ≤ (rows.foldl (colStep i) ab).2 by
    exact h (0, 0) (le_refl 0)
  induction rows with
  | nil => intro ab hab; simpa using hab
  | cons row rest ih =>
      intro ab hab
      rw [List.foldl_cons]
      refine ih (colStep i ab row) ?_
      unfold colStep
      rcases hc : row[i]? with _ | c
      · simpa [hc] using hab
      · rcases hb : isNumericFamily c.data_type <;> simp [hc, hb] <;> omega

/-- Column counters over replicated single-column rows. -/
theorem foldl_colStep_replicate (row : List TableCell) (c : TableCell)
    (h : row[0]? = some c) (m : Nat) (ab : Nat × Nat) :
    ((List.replicate m row).foldl (colStep 0) ab) =
      (ab.1 + m * (if isNumericFamily c.data_type then 1 else 0), ab.2 + m) := by
  induction m generalizing ab with
  | zero => simp
  | succ k ih =>
      rw [List.replicate_succ, List.foldl_cons, ih]
      simp only [colStep, h]
      rcases hb : isNumericFamily c.data_type <;>
        simp [hb, Prod.ext_iff] <;> omega

/-- The `f32` ratio test rejects the column of 5592417 cells with
3914692 numeric ones, although its exact ratio exceeds 70 percent: the
rounded quotient equals the rounded literal 0.7 exactly. -/
theorem ratio_big_false : ratioAbove70 3914692 5592417 = false := by
  unfold ratioAbove70
  rw [roundF32_natCast 3914692 (by norm_num), roundF32_natCast 5592417 (by norm_num)]
  have hcast : ((3914692 : ℕ) : ℚ) / ((5592417 : ℕ) : ℚ) = (3914692 : ℚ) / 5592417 := by
    push_cast
    ring
  rw [hcast]
  have hpos : (0:ℚ) < (3914692 : ℚ) / 5592417 := by norm_num
  have he : floorLog2 ((3914692 : ℚ) / 5592417) = -1 := by
    refine floorLog2_unique _ (-1) ?_ ?_ (by norm_num) (by norm_num)
    · have hE : (2:ℚ) ^ (-1 : ℤ) = 1 / 2 := by norm_num
      rw [hE]
      norm_num
    · have hE : (2:ℚ) ^ ((-1 : ℤ) + 1) = 1 := by norm_num
      rw [hE]
      norm_num
  rw [roundF32_pos_eq _ hpos, he]
  have hr : round ((3914692 : ℚ) / 5592417 * 2 ^ ((23:ℤ) - (-1))) = 11744051 := by
    have hE : (3914692 : ℚ) / 5592417 * 2 ^ ((23:ℤ) - (-1)) = 3914692 * 16777216 / 5592417 := by
      norm_num
    rw [hE, round_eq]
    norm_num [Int.floor_eq_iff]
  rw [hr]
  simp only [decide_eq_false_iff_not, not_lt]
  rw [f32_0_7_eval]
  norm_num

/-- C7 as amended: per-cell data types follow the spec's ordered
first-match rules exactly (including the rule order), and a column more
than 70 percent of whose non-header cells are numeric-family typed is
Right-aligned provided the column holds at most 2^21 = 2097152 cells —
beyond that the `f32` ratio test can fail the strict comparison (see the
counterexample); the concrete spec examples hold: {25, 30} is
Number-typed and Right-aligned, {$30,000, $45,000} is Currency-typed
and Right-aligned. -/
theorem claim_C7_amended :
    (∀ s, detect_cell_data_type s = specCellDataType s) ∧
    (∀ (headers : List TableCell) (rows : List (List TableCell)) (col numeric total : Nat),
      col < headers.length → colCounts rows col = (numeric, total) →
      total ≤ 2097152 → 7 * total < 10 * numeric →
      (determine_column_alignments headers rows)[col]? = some TextAlignment.Right) ∧
    detect_cell_data_type ("25".toList) = .Number ∧
    detect_cell_data_type ("30".toList) = .Number ∧
    detect_cell_data_type ("$30,000".toList) = .Currency ∧
    detect_cell_data_type ("$45,000".toList) = .Currency ∧
    determine_column_alignments (tableRowCells hdrRowNAC)
      [tableRowCells rowAlice, tableRowCells rowBob] =
      [TextAlignment.Left, TextAlignment.Right, TextAlignment.Left] ∧
    determine_column_alignments (tableRowCells { cells := [mkDocxCell "Salary"] })
      [tableRowCells { cells := [mkDocxCell "$30,000"] },
       tableRowCells { cells := [mkDocxCell "$45,000"] }] = [TextAlignment.Right] := by
  have hmain : ∀ (headers : List TableCell) (rows : List (List TableCell))
      (col numeric total : Nat),
      col < headers.length → colCounts rows col = (numeric, total) →
      total ≤ 2097152 → 7 * total < 10 * numeric →
      (determine_column_alignments headers rows)[col]? = some TextAlignment.Right := by
    intro headers rows col numeric total hcol hcount htot hratio
    rw [determine_column_alignments_entry headers rows col hcol, hcount]
    have hn : numeric ≤ total := by
      have := colCounts_fst_le_snd rows col
      rw [hcount] at this
      exact this
    have hrat : ratioAbove70 numeric total = true := ratioAbove70_of numeric total hn htot hratio
    have htot0 : 0 < total := by omega
    simp [hrat, htot0]
  refine ⟨detect_cell_eq_spec, hmain, by decide, by decide, by decide, by decide, ?_, ?_⟩
  · have e0 : colCounts [tableRowCells rowAlice, tableRowCells rowBob] 0 = (0, 2) := by decide
    have e1 : colCounts [tableRowCells rowAlice, tableRowCells rowBob] 1 = (2, 2) := by decide
    have e2 : colCounts [tableRowCells rowAlice, tableRowCells rowBob] 2 = (0, 2) := by decide
    have r1 : ratioAbove70 2 2 = true := ratioAbove70_of 2 2 (by norm_num) (by norm_num) (by norm_num)
    have r0 : ratioAbove70 0 2 = false := ratioAbove70_zero 2
    unfold determine_column_alignments
    rw [show (tableRowCells hdrRowNAC).length = 3 from by decide,
      show List.range 3 = [0, 1, 2] from rfl]
    simp only [List.map_cons, List.map_nil]
    rw [e0, e1, e2]
    simp [r0, r1]
  · have e0 : colCounts [tableRowCells { cells := [mkDocxCell "$30,000"] },
        tableRowCells { cells := [mkDocxCell "$45,000"] }] 0 = (2, 2) := by decide
    have r1 : ratioAbove70 2 2 = true := ratioAbove70_of 2 2 (by norm_num) (by norm_num) (by norm_num)
    unfold determine_column_alignments
    rw [show (tableRowCells { cells := [mkDocxCell "Salary"] }).length = 1 from by decide,
      show List.range 1 = [0] from rfl]
    simp only [List.map_cons, List.map_nil]
    rw [e0]
    simp [r1]

/-- C7 witness: the amended alignment rule applied to a concrete
two-cell all-numeric column. -/
theorem claim_C7_witness :
    (determine_column_alignments hdrBig [[bigNumCell], [bigNumCell]])[0]? =
      some TextAlignment.Right :=
  claim_C7_amended.2.1 hdrBig [[bigNumCell], [bigNumCell]] 0 2 2
    (by decide) (by decide) (by norm_num) (by norm_num)

/-- C7 counterexample: a single column of 5592417 non-header cells of
which 3914692 — strictly more than 70 percent — are numeric is
nevertheless Left-aligned: the `f32` quotient rounds down to exactly the
`f32` literal 0.7, and the strict comparison fails. -/
theorem claim_C7_counterexample :
    7 * 5592417 < 10 * 3914692 ∧
    colCounts bigRows 0 = (3914692, 5592417) ∧
    determine_column_alignments hdrBig bigRows = [TextAlignment.Left] := by
  have hb1 : isNumericFamily bigNumCell.data_type = true := by decide
  have hb2 : isNumericFamily bigTxtCell.data_type = false := by decide
  have hcount : colCounts bigRows 0 = (3914692, 5592417) := by
    unfold colCounts bigRows
    rw [List.foldl_append,
      foldl_colStep_replicate [bigNumCell] bigNumCell rfl 3914692 (0, 0),
      foldl_colStep_replicate [bigTxtCell] bigTxtCell rfl 1677725 _]
    rw [hb1, hb2]
    norm_num
  refine ⟨by norm_num, hcount, ?_⟩
  unfold determine_column_alignments
  rw [show hdrBig.length = 1 from by decide, show List.range 1 = [0] from rfl]
  simp only [List.map_cons, List.map_nil]
  rw [hcount]
  simp [ratio_big_false]

/-- A list always starts with itself as a prefix of any extension. -/
theorem strStartsWith_append (a b : Str) : strStartsWith (a ++ b) a = true := by
  induction a with
  | nil =>
      cases b <;> rfl
  | cons c cs ih => simp [strStartsWith, ih]

/-- Stripping the Word-list tag from a tagged text returns the tail. -/
theorem stripWordListTag_append (r : Str) : stripWordListTag (wordListTag ++ r) = r := by
  unfold stripWordListTag
  simp [strStartsWith_append, List.drop_left]

/-- Trimming a tag-prefixed text keeps the tag prefix: the tag starts
and ends with non-whitespace characters. -/
theorem strTrim_tag_prefix (r : Str) : ∃ r2, strTrim (wordListTag ++ r) = wordListTag ++ r2 := by
  unfold strTrim
  have h1 : (wordListTag ++ r).dropWhile isWhitespaceChar = wordListTag ++ r := by
    rw [show wordListTag ++ r = '_' :: ("_WORD_LIST__".toList ++ r) from rfl]
    rw [List.dropWhile_cons, if_neg (by decide)]
  rw [h1, List.reverse_append, List.dropWhile_append]
  split
  · have h3 : wordListTag.reverse.dropWhile isWhitespaceChar = wordListTag.reverse := by decide
    rw [h3, List.reverse_reverse]
    exact ⟨[], by simp⟩
  · rw [List.reverse_append, List.reverse_reverse]
    exact ⟨(r.reverse.dropWhile isWhitespaceChar).reverse, rfl⟩

/-- The text-pattern list detector rejects every tagged text. -/
theorem is_likely_list_item_tagged (r : Str) :
    is_likely_list_item (wordListTag ++ r) = false := by
  obtain ⟨r2, hr2⟩ := strTrim_tag_prefix r
  have hsw : strStartsWith (wordListTag ++ r2)
      ['_', '_', 'W', 'O', 'R', 'D', '_', 'L', 'I', 'S', 'T', '_', '_'] = true :=
    strStartsWith_append wordListTag r2
  simp [is_likely_list_item, hr2, hsw]

/-- The tagged Word-list text of any list info and source text is
rejected by the text-pattern list detector. -/
theorem is_likely_wordListText (li : ListInfo) (t : Str) :
    is_likely_list_item (wordListText li t) = false := by
  unfold wordListText
  rw [List.append_assoc, List.append_assoc]
  exact is_likely_list_item_tagged _

/-- Stripping the tag from a tagged Word-list text leaves indent, marker
and trimmed text. -/
theorem stripWordListTag_wordListText (li : ListInfo) (t : Str) :
    stripWordListTag (wordListText li t) =
      listIndent li.level ++ wordListMarker li ++ strTrim t := by
  unfold wordListText
  rw [List.append_assoc, List.append_assoc, stripWordListTag_append,
    ← List.append_assoc]

/-- The paragraph step of the assembly loop on a nonempty Word-numbered
paragraph: the tracker is untouched and a tagged Paragraph element is
produced. -/
theorem assemblePara_numbered (tr : Nat → Nat) (p : Paragraph) (li : ListInfo)
    (hli : detect_list_from_paragraph_numbering p = some li)
    (hne : strTrim (loadParaText p) ≠ []) :
    assemblePara tr p =
      (tr, some (.paragraph (wordListText li (loadParaText p)) (loadParaFmt p))) := by
  simp [assemblePara, if_neg hne, hli]

/-- The tagged element of a Word-numbered paragraph occurs in the
assembled element list, from any tracker state. -/
theorem assembleAux_mem_tagged :
    ∀ (cs : List DocumentChild) (tr : Nat → Nat) (p : Paragraph) (li : ListInfo),
      DocumentChild.paragraph p ∈ cs →
      detect_list_from_paragraph_numbering p = some li →
      strTrim (loadParaText p) ≠ [] →
      DocumentElement.paragraph (wordListText li (loadParaText p)) (loadParaFmt p) ∈
        assembleAux tr cs := by
  intro cs
  induction cs with
  | nil => intro tr p li h; simp at h
  | cons c rest ih =>
      intro tr p li hmem hli hne
      rcases List.mem_cons.mp hmem with heq | hmem2
      · subst heq
        show _ ∈ assembleAux tr (DocumentChild.paragraph p :: rest)
        simp only [assembleAux]
        rw [assemblePara_numbered tr p li hli hne]
        simp
      · cases c with
        | paragraph p2 =>
            simp only [assembleAux]
            exact List.mem_append.mpr (Or.inr (ih _ p li hmem2 hli hne))
        | table t =>
            simp only [assembleAux]
            exact List.mem_append.mpr (Or.inr (ih _ p li hmem2 hli hne))
        | otherChild =>
            simp only [assembleAux]
            exact ih _ p li hmem2 hli hne

/-- The paragraph step never produces a List element. -/
theorem assemblePara_not_list (tr : Nat → Nat) (p : Paragraph) (items : List ListItem)
    (ord : Bool) : (assemblePara tr p).2 ≠ some (.list items ord) := by
  by_cases h : strTrim (loadParaText p) = []
  · simp [assemblePara, h]
  · simp only [assemblePara, if_neg h]
    rcases hl : detect_list_from_paragraph_numbering p with _ | li
    · rcases hh : detect_heading_with_numbering p with _ | hi
      · rcases ht : detect_heading_from_text (loadParaText p) (loadParaFmt p) with _ | lvl <;>
          simp
      · rcases hn : hi.number with _ | n <;> simp [hn]
    · simp

/-- A table extraction, when it emits, emits a Table element. -/
theorem extract_table_data_shape (t : DocxTable) (el : DocumentElement)
    (he : extract_table_data t = some el) : ∃ td, el = .table td := by
  unfold extract_table_data at he
  rcases hp : (tableFirstPass t).1 with _ | ⟨h, hs⟩ <;>
    rcases hd : (tableFirstPass t).2.1 with _ | ⟨r, rs⟩ <;>
      simp only [hp, hd] at he
  · exact absurd he (by simp)
  · exact ⟨TableData.new r rs, (Option.some.inj he).symm⟩
  · exact ⟨TableData.new (h :: hs) [], (Option.some.inj he).symm⟩
  · exact ⟨TableData.new (h :: hs) (r :: rs), (Option.some.inj he).symm⟩

/-- The assembly loop never produces a List element: list blocks only
come from the later grouping pass. -/
theorem assembleAux_no_list :
    ∀ (cs : List DocumentChild) (tr : Nat → Nat) (items : List ListItem) (ord : Bool),
      DocumentElement.list items ord ∉ assembleAux tr cs := by
  intro cs
  induction cs with
  | nil => intro tr items ord h; simp [assembleAux] at h
  | cons c rest ih =>
      intro tr items ord hmem
      cases c with
      | paragraph p =>
          simp only [assembleAux] at hmem
          rcases List.mem_append.mp hmem with h1 | h2
          · rcases ho : (assemblePara tr p).2 with _ | el
            · rw [ho] at h1
              simp at h1
            · rw [ho] at h1
              simp only [Option.toList_some, List.mem_singleton] at h1
              exact assemblePara_not_list tr p items ord (by rw [ho, ← h1])
          · exact ih _ _ _ h2
      | table t =>
          simp only [assembleAux] at hmem
          rcases List.mem_append.mp hmem with h1 | h2
          · rcases he : extract_table_data t with _ | el
            · rw [he] at h1
              simp at h1
            · rw [he] at h1
              simp only [Option.toList_some, List.mem_singleton] at h1
              obtain ⟨td, htd⟩ := extract_table_data_shape t el he
              rw [htd] at h1
              exact absurd h1 (by simp)
          · exact ih _ _ _ h2
      | otherChild =>
          simp only [assembleAux] at hmem
          exact ih _ _ _ hmem

/-- A paragraph rejected by the list detector passes through the
grouping scan as a paragraph, whatever the accumulator state. -/
theorem groupListAux_mem_paragraph :
    ∀ (es : List DocumentElement) (cur : List ListItem) (ord : Bool) (t : Str)
      (f : TextFormatting),
      is_likely_list_item t = false →
      DocumentElement.paragraph t f ∈ es →
      DocumentElement.paragraph t f ∈ groupListAux es cur ord := by
  intro es
  induction es with
  | nil => intro cur ord t f hnl hmem; simp at hmem
  | cons e rest ih =>
      intro cur ord t f hnl hmem
      rcases List.mem_cons.mp hmem with heq | hmem2
      · subst heq
        simp only [groupListAux]
        rw [if_neg (by simp [hnl])]
        exact List.mem_append.mpr (Or.inr (List.mem_cons_self _ _))
      · cases e with
        | paragraph t2 f2 =>
            simp only [groupListAux]
            by_cases h2 : is_likely_list_item t2 = true
            · rw [if_pos h2]
              split
              · exact List.mem_cons_of_mem _ (ih _ _ _ _ hnl hmem2)
              · exact ih _ _ _ _ hnl hmem2
            · rw [if_neg h2]
              exact List.mem_append.mpr (Or.inr (List.mem_cons_of_mem _ (ih _ _ _ _ hnl hmem2)))
        | heading lv tx nu =>
            simp only [groupListAux]
            exact List.mem_append.mpr (Or.inr (List.mem_cons_of_mem _ (ih _ _ _ _ hnl hmem2)))
        | list its oo =>
            simp only [groupListAux]
            exact List.mem_append.mpr (Or.inr (List.mem_cons_of_mem _ (ih _ _ _ _ hnl hmem2)))
        | table td =>
            simp only [groupListAux]
            exact List.mem_append.mpr (Or.inr (List.mem_cons_of_mem _ (ih _ _ _ _ hnl hmem2)))
        | image d w h =>
            simp only [groupListAux]
            exact List.mem_append.mpr (Or.inr (List.mem_cons_of_mem _ (ih _ _ _ _ hnl hmem2)))
        | pageBreak =>
            simp only [groupListAux]
            exact List.mem_append.mpr (Or.inr (List.mem_cons_of_mem _ (ih _ _ _ _ hnl hmem2)))

/-- A List element found in a flush is exactly the accumulator. -/
theorem mem_flushList (cur : List ListItem) (ord : Bool) (items : List ListItem) (o : Bool)
    (h : DocumentElement.list items o ∈ flushList cur ord) : items = cur ∧ o = ord := by
  unfold flushList at h
  split at h
  · simp at h
  · simp only [List.mem_singleton] at h
    injection h with h1 h2
    exact ⟨h1, h2⟩

/-- Provenance of grouped list items: when the scanned element list holds
no List elements, every item of every emitted List block either was in
the starting accumulator or originates from a scanned paragraph accepted
by the text-pattern list detector, with the marker-stripped text and the
indentation level of that paragraph. -/
theorem groupListAux_list_items :
    ∀ (es : List DocumentElement) (cur : List ListItem) (ord : Bool)
      (items : List ListItem) (o : Bool),
      (∀ its oo, DocumentElement.list its oo ∉ es) →
      DocumentElement.list items o ∈ groupListAux es cur ord →
      ∀ it ∈ items, it ∈ cur ∨ ∃ t f, DocumentElement.paragraph t f ∈ es ∧
        is_likely_list_item t = true ∧ it.text = clean_list_item_text t ∧
        it.level = calculate_list_level t := by
  intro es
  induction es with
  | nil =>
      intro cur ord items o hnl hmem it hit
      simp only [groupListAux] at hmem
      obtain ⟨h1, _⟩ := mem_flushList cur ord items o hmem
      exact Or.inl (h1 ▸ hit)
  | cons e rest ih =>
      intro cur ord items o hnl hmem it hit
      have hnl2 : ∀ its oo, DocumentElement.list its oo ∉ rest :=
        fun its oo h => hnl its oo (List.mem_cons_of_mem _ h)
      cases e with
      | paragraph t2 f2 =>
          simp only [groupListAux] at hmem
          by_cases h2 : is_likely_list_item t2 = true
          · rw [if_pos h2] at hmem
            split at hmem
            · rcases List.mem_cons.mp hmem with heq | hmem3
              · injection heq with h1 _
                exact Or.inl (h1 ▸ hit)
              · have hres := ih _ _ items o hnl2 hmem3 it hit
                rcases hres with hin | ⟨t, f, hmemt, hl, he1, he2⟩
                · right
                  simp only [List.mem_singleton] at hin
                  exact ⟨t2, f2, List.mem_cons_self _ _, h2, by rw [hin], by rw [hin]⟩
                · exact Or.inr ⟨t, f, List.mem_cons_of_mem _ hmemt, hl, he1, he2⟩
            · have hres := ih _ _ items o hnl2 hmem it hit
              rcases hres with hin | ⟨t, f, hmemt, hl, he1, he2⟩
              · rcases List.mem_append.mp hin with hc | hitem
                · exact Or.inl hc
                · right
                  simp only [List.mem_singleton] at hitem
                  exact ⟨t2, f2, List.mem_cons_self _ _, h2, by rw [hitem], by rw [hitem]⟩
              · exact Or.inr ⟨t, f, List.mem_cons_of_mem _ hmemt, hl, he1, he2⟩
          · rw [if_neg h2] at hmem
            rcases List.mem_append.mp hmem with hfl | hmem3
            · obtain ⟨h1, _⟩ := mem_flushList cur ord items o hfl
              exact Or.inl (h1 ▸ hit)
            · rcases List.mem_cons.mp hmem3 with heq | hmem4
              · exact absurd heq (by simp)
              · have hres := ih _ _ items o hnl2 hmem4 it hit
                rcases hres with hin | ⟨t, f, hmemt, hl, he1, he2⟩
                · simp at hin
                · exact Or.inr ⟨t, f, List.mem_cons_of_mem _ hmemt, hl, he1, he2⟩
      | list its oo => exact absurd (List.mem_cons_self _ _) (hnl its oo)
      | heading lv tx nu =>
          simp only [groupListAux] at hmem
          rcases List.mem_append.mp hmem with hfl | hmem3
          · obtain ⟨h1, _⟩ := mem_flushList cur ord items o hfl
            exact Or.inl (h1 ▸ hit)
          · rcases List.mem_cons.mp hmem3 with heq | hmem4
            · exact absurd heq (by simp)
            · have hres := ih _ _ items o hnl2 hmem4 it hit
              rcases hres with hin | ⟨t, f, hmemt, hl, he1, he2⟩
              · simp at hin
              · exact Or.inr ⟨t, f, List.mem_cons_of_mem _ hmemt, hl, he1, he2⟩
      | table td =>
          simp only [groupListAux] at hmem
          rcases List.mem_append.mp hmem with hfl | hmem3
          · obtain ⟨h1, _⟩ := mem_flushList cur ord items o hfl
            exact Or.inl (h1 ▸ hit)
          · rcases List.mem_cons.mp hmem3 with heq | hmem4
            · exact absurd heq (by simp)
            · have hres := ih _ _ items o hnl2 hmem4 it hit
              rcases hres with hin | ⟨t, f, hmemt, hl, he1, he2⟩
              · simp at hin
              · exact Or.inr ⟨t, f, List.mem_cons_of_mem _ hmemt, hl, he1, he2⟩
      | image d w hgt =>
          simp only [groupListAux] at hmem
          rcases List.mem_append.mp hmem with hfl | hmem3
          · obtain ⟨h1, _⟩ := mem_flushList cur ord items o hfl
            exact Or.inl (h1 ▸ hit)
          · rcases List.mem_cons.mp hmem3 with heq | hmem4
            · exact absurd heq (by simp)
            · have hres := ih _ _ items o hnl2 hmem4 it hit
              rcases hres with hin | ⟨t, f, hmemt, hl, he1, he2⟩
              · simp at hin
              · exact Or.inr ⟨t, f, List.mem_cons_of_mem _ hmemt, hl, he1, he2⟩
      | pageBreak =>
          simp only [groupListAux] at hmem
          rcases List.mem_append.mp hmem with hfl | hmem3
          · obtain ⟨h1, _⟩ := mem_flushList cur ord items o hfl
            exact Or.inl (h1 ▸ hit)
          · rcases List.mem_cons.mp hmem3 with heq | hmem4
            · exact absurd heq (by simp)
            · have hres := ih _ _ items o hnl2 hmem4 it hit
              rcases hres with hin | ⟨t, f, hmemt, hl, he1, he2⟩
              · simp at hin
              · exact Or.inr ⟨t, f, List.mem_cons_of_mem _ hmemt, hl, he1, he2⟩

/-- The cleanup pass keeps every paragraph, with the tag stripped. -/
theorem clean_mem_paragraph (es : List DocumentElement) (t : Str) (f : TextFormatting)
    (h : DocumentElement.paragraph t f ∈ es) :
    DocumentElement.paragraph (stripWordListTag t) f ∈ clean_word_list_markers es := by
  unfold clean_word_list_markers
  exact List.mem_map.mpr ⟨.paragraph t f, h, rfl⟩

/-- Every List element after the cleanup pass is the image of a List
element before it, item texts tag-stripped. -/
theorem clean_mem_list (es : List DocumentElement) (items : List ListItem) (o : Bool)
    (h : DocumentElement.list items o ∈ clean_word_list_markers es) :
    ∃ items0, DocumentElement.list items0 o ∈ es ∧
      items = items0.map (fun it => { text := stripWordListTag it.text, level := it.level }) := by
  unfold clean_word_list_markers at h
  obtain ⟨e0, he0, hmap⟩ := List.mem_map.mp h
  cases e0 with
  | paragraph t0 f0 => exact absurd hmap (by simp)
  | list its0 oo =>
      simp only at hmap
      injection hmap with h1 h2
      exact ⟨its0, h2 ▸ he0, h1.symm⟩
  | heading lv tx nu => exact absurd hmap (by simp)
  | table td => exact absurd hmap (by simp)
  | image d w hgt => exact absurd hmap (by simp)
  | pageBreak => exact absurd hmap (by simp)

/-- C10: every nonempty paragraph carrying numbering metadata is emitted
in the final element list as a Paragraph whose text is the
two-spaces-per-level indent, the level-specific marker, and the trimmed
paragraph text, with the internal tag already stripped; it never lands
inside a List element — the text-pattern detector rejects tagged text
(second conjunct), and every item of every List element of the final
output originates from an assembled paragraph that the text-pattern
detector accepted (third conjunct). -/
theorem claim_C10 (cs : List DocumentChild) (p : Paragraph) (li : ListInfo)
    (hmem : DocumentChild.paragraph p ∈ cs)
    (hli : detect_list_from_paragraph_numbering p = some li)
    (hne : strTrim (loadParaText p) ≠ []) :
    DocumentElement.paragraph
        (listIndent li.level ++ wordListMarker li ++ strTrim (loadParaText p))
        (loadParaFmt p) ∈ loadElements cs ∧
    is_likely_list_item (wordListText li (loadParaText p)) = false ∧
    (∀ items o, DocumentElement.list items o ∈ loadElements cs →
      ∀ it ∈ items, ∃ t f, DocumentElement.paragraph t f ∈ assembleElements cs ∧
        is_likely_list_item t = true ∧
        it.text = stripWordListTag (clean_list_item_text t)) := by
  refine ⟨?_, is_likely_wordListText li (loadParaText p), ?_⟩
  · have hasm := assembleAux_mem_tagged cs trackerInit p li hmem hli hne
    have hgrp := groupListAux_mem_paragraph (assembleElements cs) [] false _ _
      (is_likely_wordListText li (loadParaText p)) hasm
    have hcln := clean_mem_paragraph _ _ _ hgrp
    rw [stripWordListTag_wordListText] at hcln
    exact hcln
  · intro items o hmemL it hit
    obtain ⟨items0, hmem0, hmapeq⟩ := clean_mem_list _ items o hmemL
    subst hmapeq
    obtain ⟨it0, hit0, hstrip⟩ := List.mem_map.mp hit
    have hprov := groupListAux_list_items (assembleElements cs) [] false items0 o
      (fun its oo h => assembleAux_no_list cs trackerInit its oo h) hmem0 it0 hit0
    rcases hprov with hin | ⟨t, f, hmemt, hl, he1, _⟩
    · simp at hin
    · refine ⟨t, f, hmemt, hl, ?_⟩
      rw [← hstrip]
      simp only [← he1]

/-- C10 witness: the tagged-paragraph emission applied to the concrete
numbered paragraph of the C1 counterexample. -/
theorem claim_C10_witness :
    DocumentElement.paragraph
        (listIndent 0 ++ wordListMarker { level := 0, is_ordered := true } ++
          strTrim (loadParaText c1Para))
        (loadParaFmt c1Para) ∈ loadElements [.paragraph c1Para] ∧
    is_likely_list_item
      (wordListText { level := 0, is_ordered := true } (loadParaText c1Para)) = false ∧
    (∀ items o, DocumentElement.list items o ∈ loadElements [.paragraph c1Para] →
      ∀ it ∈ items, ∃ t f,
        DocumentElement.paragraph t f ∈ assembleElements [.paragraph c1Para] ∧
        is_likely_list_item t = true ∧
        it.text = stripWordListTag (clean_list_item_text t)) :=
  claim_C10 [.paragraph c1Para] c1Para { level := 0, is_ordered := true }
    (by decide) (by decide) (by decide)
